import Mathlib

/-!
Verification of the device-placement (memcpy) transformer, the inference
session, the execution frame accessors and the reference-counted embedding
objects of this repository, against its natural-language specification.

The definitions below are shallow embeddings of the corresponding C++
code; each definition cites the source function it embeds.
-/

namespace OnnxRT

/-! ## Names of NodeArgs

A NodeArg is identified by its name (the source compares and hashes
NodeArgs by name, see FindNodeArg in transformer_memcpy.cc).  The source
creates fresh names through Graph::GenerateNodeArgName, which returns a
name unused in the graph; graph.cc is not part of the sources, so fresh
names are modelled from the spec with a dedicated constructor indexed by
a monotone counter stored in the graph. -/

inductive NName where
  | user (s : String)
  | gen (k : Nat)
deriving DecidableEq, Repr

/-- Embeds NodeArg::Exists: an empty-named NodeArg does not exist;
generated NodeArgs always exist. -/
def NName.existsArg : NName → Bool
  | NName.user s => if s = "" then false else true
  | NName.gen _ => true

/-- Embeds NodeArg::Name (only used to build the base string handed to the
fresh-name generator, which our model ignores). -/
def NName.nameStr : NName → String
  | NName.user s => s
  | NName.gen k => toString k

/-! ## Graph data model (onnxruntime::Graph as used by the pass) -/

/-- Embeds onnxruntime::Node: operator type, execution provider
assignment, and the three def lists. -/
structure TNode where
  name : String
  opType : String
  provider : String
  inputDefs : List NName
  implicitInputDefs : List NName
  outputDefs : List NName
deriving DecidableEq, Repr

/-- Embeds the parts of onnxruntime::Graph the pass reads and writes:
nodes, initialized tensors (name and payload), graph-level inputs and
outputs, and the fresh-name counter (see NName). -/
structure TGraph where
  nodes : List TNode
  inits : List (NName × Nat)
  graphInputs : List NName
  graphOutputs : List NName
  nameCounter : Nat
deriving DecidableEq, Repr

/-- Embeds the memory-type information of a KernelCreateInfo, already
composed with MemTypeOnCpuExplicitly: for an input or output index,
whether the kernel definition pins it to CPU memory explicitly. -/
structure KernelCreateInfo where
  inputMemTypeOnCpu : Nat → Bool
  outputMemTypeOnCpu : Nat → Bool

/-- Embeds KernelRegistryManager::SearchKernelRegistry: op type to
optional KernelCreateInfo (nullptr for custom kernels). -/
def KernelRegistry : Type := String → Option KernelCreateInfo

def kCpuExecutionProvider : String := "CPUExecutionProvider"

/-! ## TransformerMemcpyImpl state

The source keeps five sets (std::set keyed by NodeArg name, see the
FindNodeArg comment) and one std::map.  We model the sets as
duplicate-free lists in insertion order; only membership matters to the
algorithm, iteration order only influences which fresh counter value a
given argument receives. -/

structure TMState where
  providerNodes : List Nat
  providerInputDefs : List NName
  nonProviderInputDefs : List NName
  providerOutputDefs : List NName
  nonProviderOutputDefs : List NName
deriving DecidableEq, Repr

def initTMState : TMState := ⟨[], [], [], [], []⟩

/-- Set insertion (std::set::insert): no duplicates. -/
def insertName (x : NName) (l : List NName) : List NName :=
  if x ∈ l then l else l ++ [x]

def insertNat (x : Nat) (l : List Nat) : List Nat :=
  if x ∈ l then l else l ++ [x]

/-- Association-list lookup (std::map::find keyed by NodeArg name). -/
def alookup : List (NName × NName) → NName → Option NName
  | [], _ => none
  | p :: t, k => if p.1 = k then some p.2 else alookup t k

/-- Embeds std::map::insert: inserts only when the key is absent. -/
def mapInsert (k v : NName) (m : List (NName × NName)) : List (NName × NName) :=
  match alookup m k with
  | some _ => m
  | none => m ++ [(k, v)]

/-! ## TransformerMemcpyImpl::ProcessDefs -/

/-- Body of the ForEachWithIndex lambda over the input defs of a
provider node (transformer_memcpy.cc lines 72-81).  Note the source
performs no Exists check on provider-node inputs. -/
def provInputsStep (kci : Option KernelCreateInfo) (i : Nat) (arg : NName) (st : TMState) :
    TMState :=
  match kci with
  | some k =>
      if k.inputMemTypeOnCpu i then
        { st with nonProviderInputDefs := insertName arg st.nonProviderInputDefs }
      else
        { st with providerInputDefs := insertName arg st.providerInputDefs }
  | none => { st with providerInputDefs := insertName arg st.providerInputDefs }

def provInputsLoop (kci : Option KernelCreateInfo) : Nat → List NName → TMState → TMState
  | _, [], st => st
  | i, a :: t, st => provInputsLoop kci (i + 1) t (provInputsStep kci i a st)

/-- Body of the output loop of a provider node (lines 82-92): skips
non-existing args, then classifies by the kernel output memory type. -/
def provOutputsStep (kci : Option KernelCreateInfo) (i : Nat) (arg : NName) (st : TMState) :
    TMState :=
  if arg.existsArg = false then st
  else
    match kci with
    | some k =>
        if k.outputMemTypeOnCpu i then
          { st with nonProviderOutputDefs := insertName arg st.nonProviderOutputDefs }
        else
          { st with providerOutputDefs := insertName arg st.providerOutputDefs }
    | none => { st with providerOutputDefs := insertName arg st.providerOutputDefs }

def provOutputsLoop (kci : Option KernelCreateInfo) : Nat → List NName → TMState → TMState
  | _, [], st => st
  | i, a :: t, st => provOutputsLoop kci (i + 1) t (provOutputsStep kci i a st)

/-- Non-provider input loop (lines 99-107): inserts existing args into
nonProviderInputDefs. -/
def npInputsLoop : List NName → TMState → TMState
  | [], st => st
  | a :: t, st =>
      npInputsLoop t
        (if a.existsArg then
          { st with nonProviderInputDefs := insertName a st.nonProviderInputDefs }
        else st)

/-- Non-provider output loop (lines 109-112). -/
def npOutputsLoop : List NName → TMState → TMState
  | [], st => st
  | a :: t, st =>
      npOutputsLoop t
        (if a.existsArg then
          { st with nonProviderOutputDefs := insertName a st.nonProviderOutputDefs }
        else st)

/-- Embeds TransformerMemcpyImpl::ProcessDefs (lines 65-114) for the node
at index idx.  A non-provider node whose provider is neither the CPU
provider nor empty makes the source throw (ORT_THROW), modelled as an
error. -/
def processDefs (reg : KernelRegistry) (provider : String) (idx : Nat) (node : TNode)
    (st : TMState) : Except String TMState :=
  if node.provider = provider then
    let kci := reg node.opType
    let st1 := { st with providerNodes := insertNat idx st.providerNodes }
    let st2 := provInputsLoop kci 0 node.inputDefs st1
    Except.ok (provOutputsLoop kci 0 node.outputDefs st2)
  else if node.provider ≠ kCpuExecutionProvider ∧ node.provider ≠ "" then
    Except.error "Execution type does not support memcpy"
  else
    Except.ok
      (npOutputsLoop node.outputDefs
        (npInputsLoop node.implicitInputDefs (npInputsLoop node.inputDefs st)))

/-- The ProcessDefs loop of ModifyGraph (lines 38-41), threading node
indices. -/
def processAllDefs (reg : KernelRegistry) (provider : String) :
    Nat → List TNode → TMState → Except String TMState
  | _, [], st => Except.ok st
  | i, n :: t, st =>
      match processDefs reg provider i n st with
      | Except.error e => Except.error e
      | Except.ok st1 => processAllDefs reg provider (i + 1) t st1

/-! ## Fresh names, ReplaceDefs, AddCopyNode -/

/-- Modelled from the spec: Graph::GenerateNodeArgName (graph.cc is not
among the sources) returns a name unused in the graph.  The model returns
the next generated name and bumps the counter; the base string does not
influence the result. -/
def genNodeArgName (g : TGraph) (_base : String) : NName × TGraph :=
  (NName.gen g.nameCounter, { g with nameCounter := g.nameCounter + 1 })

/-- Embeds a single def replacement: Node::ReplaceDefs looks the def up in
the replacement map and keeps it when absent. -/
def replOne (m : List (NName × NName)) (a : NName) : NName :=
  match alookup m a with
  | some b => b
  | none => a

/-- Embeds Node::ReplaceDefs applied to one node: every def list entry is
replaced according to the map. -/
def replaceDefs (m : List (NName × NName)) (n : TNode) : TNode :=
  { n with
    inputDefs := n.inputDefs.map (replOne m),
    implicitInputDefs := n.implicitInputDefs.map (replOne m),
    outputDefs := n.outputDefs.map (replOne m) }

/-- The ReplaceDefs loop over provider nodes (lines 58-60 and 171-173):
nodes whose index is in pns are rewritten. -/
def applyReplaceDefs (m : List (NName × NName)) (pns : List Nat) : Nat → List TNode → List TNode
  | _, [] => []
  | i, n :: t => (if i ∈ pns then replaceDefs m n else n) :: applyReplaceDefs m pns (i + 1) t

/-- Embeds TransformerMemcpyImpl::AddCopyNode (lines 116-135): creates a
fresh NodeArg, adds a MemcpyFromHost (is_input) or MemcpyToHost node on
the provider, and records the replacement (std::map insert keeps an
existing binding). -/
def addCopyNode (provider : String) (arg : NName) (isInput : Bool) (g : TGraph)
    (repl : List (NName × NName)) : TGraph × List (NName × NName) :=
  let p := genNodeArgName g (NName.nameStr arg ++ "_" ++ provider)
  let newArg := p.1
  let srcArg := if isInput then arg else newArg
  let dstArg := if isInput then newArg else arg
  let opName := if isInput then "MemcpyFromHost" else "MemcpyToHost"
  let node : TNode :=
    { name := "Memcpy", opType := opName, provider := provider,
      inputDefs := [srcArg], implicitInputDefs := [], outputDefs := [dstArg] }
  ({ p.2 with nodes := p.2.nodes ++ [node] }, mapInsert arg newArg repl)

/-! ## TransformerMemcpyImpl::ProcessInitializers -/

/-- The loop of ProcessInitializers (lines 149-169): an initializer found
by name in both providerInputDefs and nonProviderInputDefs is duplicated
under a fresh name (same payload) and the replacement recorded.  The
source iterates the initializer map while inserting; inserted clones can
only be visited with fresh names that are in no def set, so visiting them
is a no-op and iterating the original list is equivalent. -/
def processInitsLoop (pIn npIn : List NName) :
    List (NName × Nat) → TGraph → List (NName × NName) → TGraph × List (NName × NName)
  | [], g, repl => (g, repl)
  | wd :: t, g, repl =>
      if wd.1 ∈ pIn ∧ wd.1 ∈ npIn then
        let p := genNodeArgName g (NName.nameStr wd.1)
        let g2 := { p.2 with inits := p.2.inits ++ [(p.1, wd.2)] }
        processInitsLoop pIn npIn t g2 (mapInsert wd.1 p.1 repl)
      else processInitsLoop pIn npIn t g repl

/-- Embeds TransformerMemcpyImpl::ProcessInitializers (lines 149-174):
duplicates shared initializers, then rewrites the defs of all provider
nodes with the local replacement map. -/
def processInits (st : TMState) (g : TGraph) : TGraph :=
  let p := processInitsLoop st.providerInputDefs st.nonProviderInputDefs g.inits g []
  { p.1 with nodes := applyReplaceDefs p.2 st.providerNodes 0 p.1.nodes }

/-! ## TransformerMemcpyImpl::ModifyGraph -/

/-- One of the two copy-insertion loops of ModifyGraph (lines 46-56):
iterates iter, and for each arg also present in checkSet adds a copy node
and sets the modified flag. -/
def copyLoop (provider : String) (isInput : Bool) (checkSet : List NName) :
    List NName → TGraph → List (NName × NName) → Bool →
      TGraph × List (NName × NName) × Bool
  | [], g, repl, m => (g, repl, m)
  | a :: t, g, repl, m =>
      if a ∈ checkSet then
        let p := addCopyNode provider a isInput g repl
        copyLoop provider isInput checkSet t p.1 p.2 true
      else copyLoop provider isInput checkSet t g repl m

/-- Embeds TransformerMemcpyImpl::ModifyGraph (lines 35-63): collect the
def sets, duplicate shared initializers, insert copy nodes in both
directions, then apply the copy replacements to all provider nodes.
Returns the transformed graph and the modified flag. -/
def modifyGraph (reg : KernelRegistry) (provider : String) (g : TGraph) :
    Except String (TGraph × Bool) :=
  match processAllDefs reg provider 0 g.nodes initTMState with
  | Except.error e => Except.error e
  | Except.ok st =>
      let g1 := processInits st g
      let q1 := copyLoop provider true st.providerInputDefs st.nonProviderOutputDefs g1 [] false
      let q2 :=
        copyLoop provider false st.nonProviderInputDefs st.providerOutputDefs q1.1 q1.2.1 q1.2.2
      Except.ok ({ q2.1 with nodes := applyReplaceDefs q2.2.1 st.providerNodes 0 q2.1.nodes },
        q2.2.2)

/-! ## The kernel registry used by the pass

The content of the kernel registry is external to the sources (spec
section 6).  Modelled from the spec: Memcpy kernels move data between
host and device, so MemcpyFromHost reads its single input from CPU
memory and MemcpyToHost writes its single output to CPU memory; no other
operator carries an explicit CPU memory type. -/

def memcpyFromHostKci : KernelCreateInfo :=
  { inputMemTypeOnCpu := fun i => decide (i = 0), outputMemTypeOnCpu := fun _ => false }

def memcpyToHostKci : KernelCreateInfo :=
  { inputMemTypeOnCpu := fun _ => false, outputMemTypeOnCpu := fun i => decide (i = 0) }

/-- Modelled from the spec: the external kernel registry, restricted to
the memory-type information the pass consumes. -/
def specRegistry : KernelRegistry := fun op =>
  if op = "MemcpyFromHost" then some memcpyFromHostKci
  else if op = "MemcpyToHost" then some memcpyToHostKci
  else none

/-! ## InferenceSession (lotus/core/framework/inference_session.cc)

The session state machine.  Model parsing (Model::Load), graph
transformers and kernel creation (CreateOpKernel) as parameters, since
they are external collaborators; the session logic itself is embedded
line by line. -/

/-- Embeds Common::Status: OK or a failure with a message. -/
inductive LStatus where
  | ok : LStatus
  | fail (msg : String) : LStatus
deriving DecidableEq, Repr

def LStatus.isOK : LStatus → Bool
  | LStatus.ok => true
  | LStatus.fail _ => false

/-- Embeds the Lotus graph as the session consumes it: the list of node
op types, in node-index order (ConstructKernels only reads OpType and
Index). -/
structure LGraph where
  nodeOps : List String
deriving DecidableEq, Repr

/-- Embeds InferenceSession::Impl: the model, the state booleans, the
kernel table of the session state, the run counter, and the log sink. -/
structure Session where
  model : Option LGraph
  isModelLoaded : Bool
  isInited : Bool
  kernels : List (Nat × String)
  currentNumRuns : Int
  log : List String
deriving DecidableEq, Repr

def Session.new : Session :=
  { model := none, isModelLoaded := false, isInited := false, kernels := [],
    currentNumRuns := 0, log := [] }

/-- Embeds InferenceSession::GetCurrentNumRuns. -/
def Session.getCurrentNumRuns (s : Session) : Int := s.currentNumRuns

/-- Embeds InferenceSession::Impl::Load (lines 38-49): Model::Load is
external, so its outcome is a parameter.  On failure the status is
returned and the session left untouched; on success the model is stored
and the loaded flag set. -/
def Session.load (s : Session) (parseResult : Except String LGraph) : LStatus × Session :=
  match parseResult with
  | Except.error e => (LStatus.fail e, s)
  | Except.ok m => (LStatus.ok, { s with isModelLoaded := true, model := some m })

/-- Embeds CreateOpKernel consulting the external kernel registry: op
type to optional kernel (modelled by a tag string). -/
def OpKernelRegistry : Type := String → Option String

/-- Message built by ConstructKernels for the error log (line 150). -/
def kernelLogMsg (opId : String) : String :=
  "Couldnt create kernel for opId: " ++ opId

/-- The status message returned by ConstructKernels on a lookup miss
(lines 151-153); note it is a fixed string that does not mention the
operator. -/
def kernelFailMsg : String :=
  "Failed to initialize session because kernel creation failed"

/-- The loop of InferenceSession::Impl::ConstructKernels (lines 142-159):
one kernel per node by registry lookup; the first miss logs the op id and
fails with the fixed message, keeping the kernels added so far. -/
def constructKernelsLoop (reg : OpKernelRegistry) :
    Nat → List String → Session → LStatus × Session
  | _, [], s => (LStatus.ok, s)
  | i, op :: t, s =>
      match reg op with
      | none => (LStatus.fail kernelFailMsg, { s with log := s.log ++ [kernelLogMsg op] })
      | some kernel =>
          constructKernelsLoop reg (i + 1) t { s with kernels := s.kernels ++ [(i, kernel)] }

def Session.constructKernels (s : Session) (reg : OpKernelRegistry) : LStatus × Session :=
  match s.model with
  | none => (LStatus.ok, s)
  | some g => constructKernelsLoop reg 0 g.nodeOps s

/-- Embeds InferenceSession::Impl::TransformGraph (lines 134-140): each
provider transformer (external) is applied to the graph in order; the
returned status and modified flag are ignored and OK is returned. -/
def Session.transformGraph (s : Session) (tfs : List (LGraph → LGraph × Bool)) :
    LStatus × Session :=
  match s.model with
  | none => (LStatus.ok, s)
  | some g =>
      (LStatus.ok, { s with model := some (tfs.foldl (fun acc tf => (tf acc).1) g) })

/-- Embeds InferenceSession::Impl::Initialize (lines 51-71): fails when
no model is loaded, otherwise transforms the graph, constructs the
kernels, and only on success sets the initialized flag. -/
def Session.doInit (s : Session) (tfs : List (LGraph → LGraph × Bool))
    (reg : OpKernelRegistry) : LStatus × Session :=
  if s.isModelLoaded = false then (LStatus.fail "Model was not loaded.", s)
  else
    let p := s.transformGraph tfs
    if p.1.isOK = false then p
    else
      let q := p.2.constructKernels reg
      if q.1.isOK = false then q
      else (LStatus.ok, { q.2 with isInited := true })

/-- Embeds InferenceSession::Impl::WaitForNotification (lines 161-168): a
positive timeout reaches LOTUS_NOT_IMPLEMENTED, which throws (modelled as
an error); otherwise the wait succeeds once the executor signals. -/
def waitForNotification (timeoutInMs : Int) : Except String LStatus :=
  if timeoutInMs > 0 then Except.error "LOTUS_NOT_IMPLEMENTED"
  else Except.ok LStatus.ok

/-- Result of one Run invocation: the value Run returns to the caller (or
the exception that escaped it), the counter value observed while the
scheduled executor closure runs, whether the executor was dispatched to
the thread pool, and the session afterwards. -/
structure RunOutcome where
  retval : Except String LStatus
  numRunsDuringExec : Int
  executorDispatched : Bool
  session : Session
deriving Repr

/-- Embeds InferenceSession::Impl::Run (lines 82-131).  The initialized
check at lines 87-89 is commented out in the source, so Run proceeds
regardless of isInited.  The counter is incremented, the executor (whose
resulting status is external, hence a parameter) is scheduled on the
thread pool, and the caller blocks in WaitForNotification; when that
throws (positive timeout), the exception escapes Run and the decrement at
line 129 is skipped. -/
def Session.run (s : Session) (execStatus : LStatus) (timeoutInMs : Int) : RunOutcome :=
  let n1 := s.currentNumRuns + 1
  match waitForNotification timeoutInMs with
  | Except.error e =>
      { retval := Except.error e, numRunsDuringExec := n1, executorDispatched := true,
        session := { s with currentNumRuns := n1 } }
  | Except.ok waitStatus =>
      let retval := if waitStatus.isOK = false then waitStatus else execStatus
      { retval := Except.ok retval, numRunsDuringExec := n1, executorDispatched := true,
        session := { s with currentNumRuns := n1 - 1 } }

/-! ## ExecutionFrame (onnxruntime/core/framework/execution_frame.h)

GetMLValue and GetMutableMLValue guard only the index range with
ORT_ENFORCE (which throws, modelled as an error) and then return the
stored value, bound or not. -/

/-- An MLValue: none models a default-constructed (never bound) value, as
stored in all_values_ before any allocation binds the slot. -/
structure MLValue where
  data : Option Nat
deriving DecidableEq, Repr

structure ExecutionFrame where
  all_values : List MLValue
deriving DecidableEq, Repr

/-- Modelled from the spec: ExecutionFrame::Init (execution_frame.cc is
not among the sources) sizes all_values_ to the total value count of the
graph, with default-constructed MLValues that are bound only later by the
allocation calls. -/
def ExecutionFrame.create (totalValueCount : Nat) : ExecutionFrame :=
  { all_values := List.replicate totalValueCount { data := none } }

/-- Embeds ExecutionFrame::GetMLValue (execution_frame.h lines 84-87):
ORT_ENFORCE checks only 0 <= index < all_values_.size(). -/
def ExecutionFrame.getMLValue (f : ExecutionFrame) (mlvalueIndex : Int) :
    Except String MLValue :=
  if 0 ≤ mlvalueIndex ∧ mlvalueIndex.toNat < f.all_values.length then
    Except.ok (f.all_values.getD mlvalueIndex.toNat { data := none })
  else Except.error "mlvalue_index out of range"

/-- Embeds ExecutionFrame::GetMutableMLValue (lines 89-92): the same
range check and lookup. -/
def ExecutionFrame.getMutableMLValue (f : ExecutionFrame) (mlvalueIndex : Int) :
    Except String MLValue :=
  if 0 ≤ mlvalueIndex ∧ mlvalueIndex.toNat < f.all_values.length then
    Except.ok (f.all_values.getD mlvalueIndex.toNat { data := none })
  else Except.error "mlvalue_index out of range"

/-! ## Reference-counted embedding objects

Embeds ObjectBase (onnx_object_cxx.h lines 24-38) and the identical
hand-rolled scheme of mkldnn_provider_factory.cc (ReleaseMkldnn,
AddRefMkldnn, constructor at line 46): an interface table plus an atomic
counter, created at 1; release decrements and destroys exactly at 0. -/

structure RCObject where
  refCount : Int
deriving DecidableEq, Repr

/-- Embeds the constructors ObjectBase() : ref_count(1) and
MkldnnProviderFactory() : ref_count(1). -/
def RCObject.create : RCObject := { refCount := 1 }

/-- Embeds OrtAddRefImpl / AddRefMkldnn: ++ref_count. -/
def RCObject.addRef (o : RCObject) : RCObject := { refCount := o.refCount + 1 }

/-- Embeds OrtReleaseImpl / ReleaseMkldnn: --ref_count, delete at zero
(none models the destroyed object). -/
def RCObject.release (o : RCObject) : Option RCObject :=
  let c := o.refCount - 1
  if c = 0 then none else some { refCount := c }

/-! ## Kernel table helper: the per-node kernels built on a successful
ConstructKernels pass. -/

def kernelTable (reg : OpKernelRegistry) : Nat → List String → List (Nat × String)
  | _, [] => []
  | i, op :: t => (i, (reg op).getD "") :: kernelTable reg (i + 1) t

/-! # Claim C1 -/

/-- A one-node graph: node P on provider B produces X, and X is a
graph-level output with no consuming node. -/
def c1Graph : TGraph :=
  { nodes := [{ name := "P", opType := "Op", provider := "B", inputDefs := [],
                implicitInputDefs := [], outputDefs := [NName.user "X"] }],
    inits := [], graphInputs := [], graphOutputs := [NName.user "X"], nameCounter := 0 }

/-- Claim C1: the pass never consults the graph-level outputs, so a
NodeArg produced by a B node that is only consumed as a graph output gets
no copy-from-B node: the pass leaves the graph untouched and reports no
modification, although the overview comment of transformer_memcpy.cc
(lines 18-21) states that all graph outputs are considered non-provider
references. -/
theorem c1_provider_graph_output_gets_no_copy_node :
    c1Graph.graphOutputs = [NName.user "X"] ∧
    c1Graph.nodes.map TNode.provider = ["B"] ∧
    c1Graph.nodes.map TNode.outputDefs = [[NName.user "X"]] ∧
    modifyGraph specRegistry "B" c1Graph = Except.ok (c1Graph, false) :=
  ⟨rfl, rfl, rfl, rfl⟩

/-! # Claim C2: counterexample -/

/-- Initializer W is referenced by provider node P only through an
implicit input, and by non-provider node N through an explicit input. -/
def c2Graph : TGraph :=
  { nodes := [{ name := "P", opType := "Op", provider := "B", inputDefs := [],
                implicitInputDefs := [NName.user "W"], outputDefs := [NName.user "Y"] },
              { name := "N", opType := "Op2", provider := "", inputDefs := [NName.user "W"],
                implicitInputDefs := [], outputDefs := [] }],
    inits := [(NName.user "W", 7)], graphInputs := [], graphOutputs := [],
    nameCounter := 0 }

/-- Counterexample to claim C2 as stated: initializer W is referenced by
a B node (implicit input) and by a non-B node, yet the pass leaves the
graph untouched: ProcessDefs ignores the implicit inputs of provider
nodes, so no duplicate initializer is created. -/
theorem c2_implicit_reference_not_cloned :
    ((NName.user "W", 7) ∈ c2Graph.inits) ∧
    (∃ n ∈ c2Graph.nodes, n.provider = "B" ∧ NName.user "W" ∈ n.implicitInputDefs) ∧
    (∃ n ∈ c2Graph.nodes, n.provider ≠ "B" ∧ NName.user "W" ∈ n.inputDefs) ∧
    modifyGraph specRegistry "B" c2Graph = Except.ok (c2Graph, false) := by
  refine ⟨by decide, ?_, ?_, rfl⟩
  · exact ⟨{ name := "P", opType := "Op", provider := "B", inputDefs := [], implicitInputDefs := [NName.user "W"], outputDefs := [NName.user "Y"] }, by decide⟩
  · exact ⟨{ name := "N", opType := "Op2", provider := "", inputDefs := [NName.user "W"], implicitInputDefs := [], outputDefs := [] }, by decide⟩

/-! # Claim C3: counterexample -/

/-- A graph that already contains a MemcpyToHost node assigned to B: U
copies x to y, and Q (also on B) consumes y. -/
def c3CeGraph : TGraph :=
  { nodes := [{ name := "U", opType := "MemcpyToHost", provider := "B",
                inputDefs := [NName.user "x"], implicitInputDefs := [],
                outputDefs := [NName.user "y"] },
              { name := "Q", opType := "Q", provider := "B", inputDefs := [NName.user "y"],
                implicitInputDefs := [], outputDefs := [] }],
    inits := [], graphInputs := [], graphOutputs := [], nameCounter := 0 }

/-- The result of the first run of the pass on c3CeGraph. -/
def c3CeGraph1 : TGraph :=
  { nodes := [{ name := "U", opType := "MemcpyToHost", provider := "B",
                inputDefs := [NName.user "x"], implicitInputDefs := [],
                outputDefs := [NName.gen 0] },
              { name := "Q", opType := "Q", provider := "B", inputDefs := [NName.gen 0],
                implicitInputDefs := [], outputDefs := [] },
              { name := "Memcpy", opType := "MemcpyFromHost", provider := "B",
                inputDefs := [NName.user "y"], implicitInputDefs := [],
                outputDefs := [NName.gen 0] }],
    inits := [], graphInputs := [], graphOutputs := [], nameCounter := 1 }

/-- The result of the second run of the pass on c3CeGraph1. -/
def c3CeGraph2 : TGraph :=
  { nodes := [{ name := "U", opType := "MemcpyToHost", provider := "B",
                inputDefs := [NName.user "x"], implicitInputDefs := [],
                outputDefs := [NName.gen 1] },
              { name := "Q", opType := "Q", provider := "B", inputDefs := [NName.gen 1],
                implicitInputDefs := [], outputDefs := [] },
              { name := "Memcpy", opType := "MemcpyFromHost", provider := "B",
                inputDefs := [NName.user "y"], implicitInputDefs := [],
                outputDefs := [NName.gen 1] },
              { name := "Memcpy", opType := "MemcpyFromHost", provider := "B",
                inputDefs := [NName.gen 0], implicitInputDefs := [],
                outputDefs := [NName.gen 1] }],
    inits := [], graphInputs := [], graphOutputs := [], nameCounter := 2 }

/-- Counterexample to claim C3 as stated: on a graph already holding a
MemcpyToHost node assigned to B, the second run of the pass inserts a
further copy node and reports that it modified the graph again. -/
theorem c3_second_run_still_modifies :
    modifyGraph specRegistry "B" c3CeGraph = Except.ok (c3CeGraph1, true) ∧
    modifyGraph specRegistry "B" c3CeGraph1 = Except.ok (c3CeGraph2, true) ∧
    c3CeGraph2 ≠ c3CeGraph1 :=
  ⟨rfl, rfl, by decide⟩

/-! # Claim C4 -/

/-- Claim C4: the not-initialized guard in Run (inference_session.cc
lines 87-89) is commented out, so Run on a session that was never
initialized does not return a not-initialized condition: it dispatches
the executor and returns the executor status. -/
theorem c4_run_proceeds_when_not_initialized :
    Session.new.isInited = false ∧
    (Session.new.run LStatus.ok 0).executorDispatched = true ∧
    (Session.new.run LStatus.ok 0).retval = Except.ok LStatus.ok :=
  ⟨rfl, rfl, rfl⟩

/-! # Claim C5 -/

/-- Claim C5: for any positive timeout WaitForNotification reaches
LOTUS_NOT_IMPLEMENTED, so Run ends with a not-implemented exception
instead of returning a Timeout condition (the executor has already been
dispatched and keeps running). -/
theorem c5_positive_timeout_raises_not_implemented :
    (Session.new.run LStatus.ok 5).retval = Except.error "LOTUS_NOT_IMPLEMENTED" ∧
    (Session.new.run LStatus.ok 5).executorDispatched = true :=
  ⟨rfl, rfl⟩

/-! # Claim C6 -/

def c6SessionFoo : Session :=
  { Session.new with isModelLoaded := true, model := some { nodeOps := ["Foo"] } }

def c6SessionBar : Session :=
  { Session.new with isModelLoaded := true, model := some { nodeOps := ["Bar"] } }

def c6EmptyRegistry : OpKernelRegistry := fun _ => none

/-- Counterexample to claim C6 as stated: two sessions whose graphs miss
different operators (Foo and Bar) fail Initialize with literally the same
status, so the returned kernel-creation-failure condition cannot name the
missing operator (the name only goes to the error log). -/
theorem c6_failure_status_does_not_name_operator :
    (c6SessionFoo.doInit [] c6EmptyRegistry).1 = (c6SessionBar.doInit [] c6EmptyRegistry).1 ∧
    (c6SessionFoo.doInit [] c6EmptyRegistry).1 = LStatus.fail kernelFailMsg ∧
    (c6SessionFoo.doInit [] c6EmptyRegistry).2.isInited = false ∧
    kernelLogMsg "Foo" ∈ (c6SessionFoo.doInit [] c6EmptyRegistry).2.log :=
  ⟨rfl, rfl, rfl, by decide⟩

/-- ConstructKernels helper: when every op resolves, the loop succeeds
and appends one kernel per node, each obtained by registry lookup. -/
theorem constructKernelsLoop_all_found (reg : OpKernelRegistry) (ops : List String) :
    ∀ (i : Nat) (s : Session), (∀ op ∈ ops, (reg op).isSome = true) →
      constructKernelsLoop reg i ops s =
        (LStatus.ok, { s with kernels := s.kernels ++ kernelTable reg i ops }) := by
  induction ops with
  | nil =>
      intro i s _
      simp [constructKernelsLoop, kernelTable]
  | cons a t ih =>
      intro i s hall
      have ha : (reg a).isSome = true := hall a (by simp)
      obtain ⟨k, hk⟩ := Option.isSome_iff_exists.mp ha
      have ht : ∀ op ∈ t, (reg op).isSome = true := fun op hop => hall op (by simp [hop])
      simp only [constructKernelsLoop, hk]
      rw [ih (i + 1) _ ht]
      simp [kernelTable, hk]

/-- ConstructKernels helper: a missing op makes the loop fail with the
fixed message and leaves isInited untouched. -/
theorem constructKernelsLoop_miss (reg : OpKernelRegistry) (ops : List String) :
    ∀ (i : Nat) (s : Session), (∃ op ∈ ops, reg op = none) →
      (constructKernelsLoop reg i ops s).1 = LStatus.fail kernelFailMsg ∧
      (constructKernelsLoop reg i ops s).2.isInited = s.isInited := by
  induction ops with
  | nil =>
      intro i s h
      simp at h
  | cons a t ih =>
      intro i s h
      cases hk : reg a with
      | none => simp [constructKernelsLoop, hk]
      | some k =>
          obtain ⟨op, hop, hnone⟩ := h
          rcases List.mem_cons.mp hop with rfl | hmem
          · rw [hk] at hnone
            exact absurd hnone (by simp)
          · simp only [constructKernelsLoop, hk]
            exact ih (i + 1) _ ⟨op, hmem, hnone⟩

/-- Claim C6, amended: Initialize builds one kernel per node of the
transformed graph by looking the op type up in the external registry, and
a lookup miss aborts initialization (the session does not become
initialized) with a fixed kernel-creation-failure status; the missing
operator is named only in the error log, not in the returned status. -/
theorem c6_kernel_lookup_behaviour (s : Session) (tfs : List (LGraph → LGraph × Bool))
    (reg : OpKernelRegistry) (g : LGraph)
    (hl : s.isModelLoaded = true) (hm : s.model = some g) (hni : s.isInited = false) :
    ((∀ op ∈ (tfs.foldl (fun acc tf => (tf acc).1) g).nodeOps, (reg op).isSome = true) →
      (s.doInit tfs reg).1 = LStatus.ok ∧
      (s.doInit tfs reg).2.isInited = true ∧
      (s.doInit tfs reg).2.kernels =
        s.kernels ++ kernelTable reg 0 (tfs.foldl (fun acc tf => (tf acc).1) g).nodeOps) ∧
    ((∃ op ∈ (tfs.foldl (fun acc tf => (tf acc).1) g).nodeOps, reg op = none) →
      (s.doInit tfs reg).1 = LStatus.fail kernelFailMsg ∧
      (s.doInit tfs reg).2.isInited = false) := by
  have hstep : s.doInit tfs reg =
      (if (constructKernelsLoop reg 0 (tfs.foldl (fun acc tf => (tf acc).1) g).nodeOps
            { s with model := some (tfs.foldl (fun acc tf => (tf acc).1) g) }).1.isOK = false
       then constructKernelsLoop reg 0 (tfs.foldl (fun acc tf => (tf acc).1) g).nodeOps
            { s with model := some (tfs.foldl (fun acc tf => (tf acc).1) g) }
       else (LStatus.ok,
         { (constructKernelsLoop reg 0 (tfs.foldl (fun acc tf => (tf acc).1) g).nodeOps
              { s with model := some (tfs.foldl (fun acc tf => (tf acc).1) g) }).2 with
           isInited := true })) := by
    unfold Session.doInit Session.transformGraph Session.constructKernels
    rw [hl, hm]
    simp [LStatus.isOK]
  constructor
  · intro hall
    rw [hstep]
    rw [constructKernelsLoop_all_found reg _ 0 _ hall]
    simp [LStatus.isOK]
  · intro hmiss
    have hq := constructKernelsLoop_miss reg
      (tfs.foldl (fun acc tf => (tf acc).1) g).nodeOps 0
      { s with model := some (tfs.foldl (fun acc tf => (tf acc).1) g) } hmiss
    have hcond : (constructKernelsLoop reg 0 (tfs.foldl (fun acc tf => (tf acc).1) g).nodeOps
        { s with model := some (tfs.foldl (fun acc tf => (tf acc).1) g) }).1.isOK = false := by
      rw [hq.1]
      rfl
    rw [hstep, if_pos hcond]
    exact ⟨hq.1, hq.2.trans hni⟩

def c6FooRegistry : OpKernelRegistry := fun op =>
  if op = "Foo" then some "FooKernel" else none

theorem c6_kernel_lookup_behaviour_witness :
    ((c6SessionFoo.doInit [] c6FooRegistry).1 = LStatus.ok ∧
      (c6SessionFoo.doInit [] c6FooRegistry).2.isInited = true ∧
      (c6SessionFoo.doInit [] c6FooRegistry).2.kernels =
        c6SessionFoo.kernels ++ kernelTable c6FooRegistry 0 ["Foo"]) ∧
    ((c6SessionBar.doInit [] c6FooRegistry).1 = LStatus.fail kernelFailMsg ∧
      (c6SessionBar.doInit [] c6FooRegistry).2.isInited = false) :=
  ⟨(c6_kernel_lookup_behaviour c6SessionFoo [] c6FooRegistry { nodeOps := ["Foo"] }
      rfl rfl rfl).1 (by decide),
   (c6_kernel_lookup_behaviour c6SessionBar [] c6FooRegistry { nodeOps := ["Bar"] }
      rfl rfl rfl).2 ⟨"Bar", by simp [c6FooRegistry]⟩⟩

/-! # Claim C7 -/

/-- Claim C7: Load parses into a temporary; a parse failure returns the
failure and leaves the session untouched, a parse success stores the
graph and sets the loaded flag. -/
theorem c7_load_state_transition (s : Session) (pr : Except String LGraph) :
    (∀ e, pr = Except.error e → s.load pr = (LStatus.fail e, s)) ∧
    (∀ m, pr = Except.ok m →
      s.load pr = (LStatus.ok, { s with isModelLoaded := true, model := some m })) := by
  constructor
  · rintro e rfl
    rfl
  · rintro m rfl
    rfl

theorem c7_load_state_transition_witness :
    Session.new.load (Except.error "parse failed") =
      (LStatus.fail "parse failed", Session.new) ∧
    Session.new.load (Except.ok { nodeOps := ["Add"] }) =
      (LStatus.ok, { Session.new with isModelLoaded := true, model := some { nodeOps := ["Add"] } }) :=
  ⟨(c7_load_state_transition Session.new (Except.error "parse failed")).1 "parse failed" rfl,
   (c7_load_state_transition Session.new (Except.ok { nodeOps := ["Add"] })).2
     { nodeOps := ["Add"] } rfl⟩

/-! # Claim C8 -/

/-- Counterexample to claim C8 as stated: a Run with a positive timeout
raises the not-implemented exception after the increment and before the
decrement, so the counter is left at 1: it is not decremented after a
timed-out run. -/
theorem c8_timeout_path_skips_decrement :
    Session.new.getCurrentNumRuns = 0 ∧
    (Session.new.run LStatus.ok 5).retval = Except.error "LOTUS_NOT_IMPLEMENTED" ∧
    (Session.new.run LStatus.ok 5).session.getCurrentNumRuns = 1 :=
  ⟨rfl, rfl, rfl⟩

/-- Claim C8, amended: the counter is incremented before the executor is
dispatched and decremented after completion, so a single Run invocation
without a positive timeout observes 0 before, 1 strictly during, 0 after;
the positive-timeout path escapes with the not-implemented exception
before the decrement. -/
theorem c8_counter_zero_one_zero (s : Session) (execStatus : LStatus) (t : Int)
    (h0 : s.getCurrentNumRuns = 0) (ht : t ≤ 0) :
    (s.run execStatus t).numRunsDuringExec = s.getCurrentNumRuns + 1 ∧
    (s.run execStatus t).numRunsDuringExec = 1 ∧
    (s.run execStatus t).session.getCurrentNumRuns = 0 ∧
    (s.run execStatus t).retval = Except.ok execStatus := by
  have hw : waitForNotification t = Except.ok LStatus.ok := by
    unfold waitForNotification
    rw [if_neg (by omega)]
  unfold Session.run
  rw [hw]
  simp [Session.getCurrentNumRuns] at h0 ⊢
  simp [h0, LStatus.isOK]

theorem c8_counter_zero_one_zero_witness :
    (Session.new.run LStatus.ok 0).numRunsDuringExec = Session.new.getCurrentNumRuns + 1 ∧
    (Session.new.run LStatus.ok 0).numRunsDuringExec = 1 ∧
    (Session.new.run LStatus.ok 0).session.getCurrentNumRuns = 0 ∧
    (Session.new.run LStatus.ok 0).retval = Except.ok LStatus.ok :=
  c8_counter_zero_one_zero Session.new LStatus.ok 0 rfl (by decide)

/-! # Claim C9 -/

/-- Counterexample to claim C9 as stated: in a frame with two slots,
index 0 was never bound, yet GetMLValue and GetMutableMLValue return the
default-constructed value instead of failing: the ORT_ENFORCE checks only
the index range. -/
theorem c9_unbound_in_range_returns_value :
    (ExecutionFrame.create 2).getMLValue 0 = Except.ok { data := none } ∧
    (ExecutionFrame.create 2).getMutableMLValue 0 = Except.ok { data := none } :=
  ⟨rfl, rfl⟩

/-- Claim C9, amended: GetMLValue and GetMutableMLValue fail with the
out-of-range condition exactly when the index lies outside the value
table; an in-range index returns the stored value, which is the
default-constructed MLValue when the index was never bound. -/
theorem c9_enforce_checks_range_only (f : ExecutionFrame) (i : Int) :
    ((0 ≤ i ∧ i.toNat < f.all_values.length) →
      f.getMLValue i = Except.ok (f.all_values.getD i.toNat { data := none }) ∧
      f.getMutableMLValue i = Except.ok (f.all_values.getD i.toNat { data := none })) ∧
    (¬(0 ≤ i ∧ i.toNat < f.all_values.length) →
      f.getMLValue i = Except.error "mlvalue_index out of range" ∧
      f.getMutableMLValue i = Except.error "mlvalue_index out of range") := by
  constructor
  · intro h
    constructor
    · unfold ExecutionFrame.getMLValue
      rw [if_pos h]
    · unfold ExecutionFrame.getMutableMLValue
      rw [if_pos h]
  · intro h
    constructor
    · unfold ExecutionFrame.getMLValue
      rw [if_neg h]
    · unfold ExecutionFrame.getMutableMLValue
      rw [if_neg h]

theorem c9_enforce_checks_range_only_witness :
    ((ExecutionFrame.create 1).getMLValue 0 = Except.ok { data := none } ∧
      (ExecutionFrame.create 1).getMutableMLValue 0 = Except.ok { data := none }) ∧
    ((ExecutionFrame.create 1).getMLValue (-1) =
        Except.error "mlvalue_index out of range" ∧
      (ExecutionFrame.create 1).getMutableMLValue (-1) =
        Except.error "mlvalue_index out of range") :=
  ⟨(c9_enforce_checks_range_only (ExecutionFrame.create 1) 0).1 (by decide),
   (c9_enforce_checks_range_only (ExecutionFrame.create 1) (-1)).2 (by decide)⟩

/-! # Claim C10 -/

/-- Claim C10: a reference-counted embedding object starts at count 1,
AddRef followed by Release returns to the same live object, and Release
destroys the object exactly when it brings the count from 1 to 0. -/
theorem c10_refcount_invariant (o : RCObject) (h : 1 ≤ o.refCount) :
    RCObject.create.refCount = 1 ∧
    o.addRef.release = some o ∧
    (o.release = none ↔ o.refCount = 1) := by
  refine ⟨rfl, ?_, ?_⟩
  · unfold RCObject.release RCObject.addRef
    simp only []
    rw [if_neg (by omega)]
    cases o
    simp
  · unfold RCObject.release
    constructor
    · intro hrel
      by_cases hc : o.refCount - 1 = 0
      · omega
      · rw [if_neg hc] at hrel
        exact absurd hrel (by simp)
    · intro h1
      rw [if_pos (by omega)]

theorem c10_refcount_invariant_witness :
    RCObject.create.refCount = 1 ∧
    RCObject.create.addRef.release = some RCObject.create ∧
    (RCObject.create.release = none ↔ RCObject.create.refCount = 1) :=
  c10_refcount_invariant RCObject.create (by decide)

/-! # Infrastructure for the transformer theorems (claims C2 and C3)

Membership characterizations of the def sets, the replacement maps and
the node lists produced by one run of the pass. -/

/-- All NodeArg names mentioned by a node. -/
def nodeNames (n : TNode) : List NName :=
  n.inputDefs ++ n.implicitInputDefs ++ n.outputDefs

/-- All NodeArg names mentioned by the graph parts the pass reads. -/
def graphNames (g : TGraph) : List NName :=
  (g.nodes.flatMap nodeNames) ++ g.inits.map Prod.fst

/-- Well-formedness: the fresh-name counter is ahead of every generated
name already present in the graph. -/
def counterFresh (g : TGraph) : Bool :=
  (graphNames g).all fun x =>
    match x with
    | NName.gen k => decide (k < g.nameCounter)
    | NName.user _ => true

/-- Well-formedness: the graph holds no Memcpy node yet. -/
def noMemcpyOps (g : TGraph) : Bool :=
  g.nodes.all fun n =>
    decide (n.opType ≠ "MemcpyFromHost" ∧ n.opType ≠ "MemcpyToHost")

/-- Well-formedness: no initializer name is produced by a node. -/
def initsNotProduced (g : TGraph) : Bool :=
  g.inits.all fun wd => g.nodes.all fun n => decide (wd.1 ∉ n.outputDefs)

/-- The copy node built by AddCopyNode. -/
def memNode (provider : String) (isInput : Bool) (arg newArg : NName) : TNode :=
  { name := "Memcpy",
    opType := if isInput then "MemcpyFromHost" else "MemcpyToHost",
    provider := provider,
    inputDefs := [if isInput then arg else newArg],
    implicitInputDefs := [],
    outputDefs := [if isInput then newArg else arg] }

theorem addCopyNode_eq (provider : String) (arg : NName) (isInput : Bool) (g : TGraph)
    (repl : List (NName × NName)) :
    addCopyNode provider arg isInput g repl =
      ({ g with nodes := g.nodes ++ [memNode provider isInput arg (NName.gen g.nameCounter)], nameCounter := g.nameCounter + 1 },
       mapInsert arg (NName.gen g.nameCounter) repl) := by
  cases isInput <;> rfl

theorem mem_insertName {x a : NName} {l : List NName} :
    x ∈ insertName a l ↔ x = a ∨ x ∈ l := by
  unfold insertName
  by_cases h : a ∈ l
  · rw [if_pos h]
    constructor
    · intro hx
      exact Or.inr hx
    · rintro (rfl | hx)
      · exact h
      · exact hx
  · rw [if_neg h]
    simp [List.mem_append, or_comm]

theorem mem_insertNat {x a : Nat} {l : List Nat} :
    x ∈ insertNat a l ↔ x = a ∨ x ∈ l := by
  unfold insertNat
  by_cases h : a ∈ l
  · rw [if_pos h]
    constructor
    · intro hx
      exact Or.inr hx
    · rintro (rfl | hx)
      · exact h
      · exact hx
  · rw [if_neg h]
    simp [List.mem_append, or_comm]

theorem alookup_append (m1 m2 : List (NName × NName)) (k : NName) :
    alookup (m1 ++ m2) k =
      match alookup m1 k with
      | some v => some v
      | none => alookup m2 k := by
  induction m1 with
  | nil => simp [alookup]
  | cons p t ih =>
      by_cases h : p.1 = k
      · simp [alookup, h]
      · simp [alookup, h, ih]

theorem alookup_mapInsert_of_some {m : List (NName × NName)} {k k2 v : NName}
    (h : alookup m k2 = some v) : alookup (mapInsert k v2 m) k2 = some v := by
  unfold mapInsert
  cases hk : alookup m k with
  | some w => exact h
  | none =>
      rw [alookup_append, h]

theorem alookup_mapInsert_self {m : List (NName × NName)} {k v : NName} :
    (alookup (mapInsert k v m) k).isSome = true := by
  unfold mapInsert
  cases hk : alookup m k with
  | some w => simp [hk]
  | none =>
      rw [alookup_append, hk]
      simp [alookup]

theorem alookup_mapInsert_inv {m : List (NName × NName)} {k v k2 w : NName}
    (h : alookup (mapInsert k v m) k2 = some w) :
    alookup m k2 = some w ∨ (k2 = k ∧ w = v) := by
  unfold mapInsert at h
  cases hk : alookup m k with
  | some u =>
      rw [hk] at h
      exact Or.inl h
  | none =>
      rw [hk, alookup_append] at h
      cases hm : alookup m k2 with
      | some u =>
          rw [hm] at h
          exact Or.inl h
      | none =>
          rw [hm] at h
          simp only [alookup] at h
          by_cases he : k = k2
          · rw [if_pos he] at h
            injection h with h2
            exact Or.inr ⟨he.symm, h2.symm⟩
          · rw [if_neg he] at h
            cases h

theorem replOne_nil (a : NName) : replOne [] a = a := rfl

theorem map_replOne_nil (l : List NName) : l.map (replOne []) = l := by
  induction l with
  | nil => rfl
  | cons a t ih => simp [replOne_nil, ih]

theorem replaceDefs_nil (n : TNode) : replaceDefs [] n = n := by
  cases n
  simp [replaceDefs, map_replOne_nil]

theorem applyReplaceDefs_nil_map (pns : List Nat) :
    ∀ (i : Nat) (ns : List TNode), applyReplaceDefs [] pns i ns = ns := by
  intro i ns
  induction ns generalizing i with
  | nil => rfl
  | cons n t ih =>
      simp [applyReplaceDefs, replaceDefs_nil, ih]

theorem applyReplaceDefs_length (m : List (NName × NName)) (pns : List Nat) :
    ∀ (i : Nat) (ns : List TNode), (applyReplaceDefs m pns i ns).length = ns.length := by
  intro i ns
  induction ns generalizing i with
  | nil => rfl
  | cons n t ih => simp [applyReplaceDefs, ih]

theorem applyReplaceDefs_append (m : List (NName × NName)) (pns : List Nat) :
    ∀ (i : Nat) (xs ys : List TNode),
      applyReplaceDefs m pns i (xs ++ ys) =
        applyReplaceDefs m pns i xs ++ applyReplaceDefs m pns (i + xs.length) ys := by
  intro i xs
  induction xs generalizing i with
  | nil => intro ys; simp [applyReplaceDefs]
  | cons x t ih =>
      intro ys
      simp only [List.cons_append, applyReplaceDefs, List.length_cons, List.append_eq]
      rw [ih (i + 1) ys]
      rw [show i + 1 + t.length = i + (t.length + 1) from by omega]

theorem applyReplaceDefs_no_hit (m : List (NName × NName)) (pns : List Nat) :
    ∀ (i : Nat) (ns : List TNode), (∀ j ∈ pns, j < i) →
      applyReplaceDefs m pns i ns = ns := by
  intro i ns
  induction ns generalizing i with
  | nil => intro _; rfl
  | cons n t ih =>
      intro hb
      have hni : i ∉ pns := fun hi => absurd (hb i hi) (by omega)
      simp only [applyReplaceDefs, if_neg hni]
      rw [ih (i + 1) (fun j hj => Nat.lt_succ_of_lt (hb j hj))]

/-- When membership in pns at every position matches the provider test,
the indexed rewrite is a map of the conditional rewrite. -/
theorem applyReplaceDefs_eq_map (m : List (NName × NName)) (pns : List Nat) (B : String) :
    ∀ (i : Nat) (ns : List TNode),
      (∀ (j : Nat) (h : j < ns.length), ((i + j) ∈ pns ↔ (ns.get ⟨j, h⟩).provider = B)) →
      applyReplaceDefs m pns i ns =
        ns.map (fun n => if n.provider = B then replaceDefs m n else n) := by
  intro i ns
  induction ns generalizing i with
  | nil => intro _; rfl
  | cons n t ih =>
      intro hiff
      have h0 := hiff 0 (by simp)
      simp only [Nat.add_zero] at h0
      have hrest : ∀ (j : Nat) (h : j < t.length),
          (((i + 1) + j) ∈ pns ↔ (t.get ⟨j, h⟩).provider = B) := by
        intro j h
        have := hiff (j + 1) (by simp; omega)
        have harith : i + (j + 1) = i + 1 + j := by omega
        rw [harith] at this
        exact this
      simp only [applyReplaceDefs, List.map_cons]
      rw [ih (i + 1) hrest]
      by_cases hp : n.provider = B
      · rw [if_pos (h0.mpr hp), if_pos hp]
      · rw [if_neg (fun hmem => hp (h0.mp hmem)), if_neg hp]

/-- A copy loop whose iteration list never meets the check set does
nothing. -/
theorem copyLoop_no_hit (provider : String) (isInput : Bool) (checkSet : List NName) :
    ∀ (iter : List NName) (g : TGraph) (repl : List (NName × NName)) (m : Bool),
      (∀ a ∈ iter, a ∉ checkSet) →
      copyLoop provider isInput checkSet iter g repl m = (g, repl, m) := by
  intro iter
  induction iter with
  | nil => intro g repl m _; rfl
  | cons a t ih =>
      intro g repl m h
      have ha : a ∉ checkSet := h a (by simp)
      simp only [copyLoop, if_neg ha]
      exact ih g repl m (fun b hb => h b (by simp [hb]))

/-! ### Contributions of a single node to the def sets -/

def provInSingle (kci : Option KernelCreateInfo) (i : Nat) (a : NName) : List NName :=
  match kci with
  | some k => if k.inputMemTypeOnCpu i then [] else [a]
  | none => [a]

def provInCpuSingle (kci : Option KernelCreateInfo) (i : Nat) (a : NName) : List NName :=
  match kci with
  | some k => if k.inputMemTypeOnCpu i then [a] else []
  | none => []

def provOutSingle (kci : Option KernelCreateInfo) (i : Nat) (a : NName) : List NName :=
  if a.existsArg = false then []
  else
    match kci with
    | some k => if k.outputMemTypeOnCpu i then [] else [a]
    | none => [a]

def provOutCpuSingle (kci : Option KernelCreateInfo) (i : Nat) (a : NName) : List NName :=
  if a.existsArg = false then []
  else
    match kci with
    | some k => if k.outputMemTypeOnCpu i then [a] else []
    | none => []

def provInContrib (kci : Option KernelCreateInfo) : Nat → List NName → List NName
  | _, [] => []
  | i, a :: t => provInSingle kci i a ++ provInContrib kci (i + 1) t

def provInCpuContrib (kci : Option KernelCreateInfo) : Nat → List NName → List NName
  | _, [] => []
  | i, a :: t => provInCpuSingle kci i a ++ provInCpuContrib kci (i + 1) t

def provOutContrib (kci : Option KernelCreateInfo) : Nat → List NName → List NName
  | _, [] => []
  | i, a :: t => provOutSingle kci i a ++ provOutContrib kci (i + 1) t

def provOutCpuContrib (kci : Option KernelCreateInfo) : Nat → List NName → List NName
  | _, [] => []
  | i, a :: t => provOutCpuSingle kci i a ++ provOutCpuContrib kci (i + 1) t

def existsFilter (l : List NName) : List NName := l.filter fun a => a.existsArg

theorem provInputsStep_fields (kci : Option KernelCreateInfo) (i : Nat) (a : NName)
    (st : TMState) :
    (provInputsStep kci i a st).providerNodes = st.providerNodes ∧
    (provInputsStep kci i a st).providerOutputDefs = st.providerOutputDefs ∧
    (provInputsStep kci i a st).nonProviderOutputDefs = st.nonProviderOutputDefs := by
  cases kci with
  | none => exact ⟨rfl, rfl, rfl⟩
  | some k => by_cases h : k.inputMemTypeOnCpu i <;> simp [provInputsStep, h]

theorem provInputsStep_pIn (kci : Option KernelCreateInfo) (i : Nat) (a : NName)
    (st : TMState) (x : NName) :
    x ∈ (provInputsStep kci i a st).providerInputDefs ↔
      x ∈ st.providerInputDefs ∨ x ∈ provInSingle kci i a := by
  cases kci with
  | none =>
      simp only [provInputsStep, provInSingle, mem_insertName, List.mem_singleton]
      tauto
  | some k =>
      by_cases h : k.inputMemTypeOnCpu i <;>
        simp [provInputsStep, provInSingle, h, mem_insertName] <;> tauto

theorem provInputsStep_npIn (kci : Option KernelCreateInfo) (i : Nat) (a : NName)
    (st : TMState) (x : NName) :
    x ∈ (provInputsStep kci i a st).nonProviderInputDefs ↔
      x ∈ st.nonProviderInputDefs ∨ x ∈ provInCpuSingle kci i a := by
  cases kci with
  | none =>
      simp only [provInputsStep, provInCpuSingle, List.not_mem_nil]
      tauto
  | some k =>
      by_cases h : k.inputMemTypeOnCpu i <;>
        simp [provInputsStep, provInCpuSingle, h, mem_insertName] <;> tauto

theorem provInputsLoop_spec (kci : Option KernelCreateInfo) :
    ∀ (l : List NName) (i : Nat) (st : TMState),
      ((provInputsLoop kci i l st).providerNodes = st.providerNodes ∧
       (provInputsLoop kci i l st).providerOutputDefs = st.providerOutputDefs ∧
       (provInputsLoop kci i l st).nonProviderOutputDefs = st.nonProviderOutputDefs) ∧
      ∀ x : NName,
        (x ∈ (provInputsLoop kci i l st).providerInputDefs ↔
          x ∈ st.providerInputDefs ∨ x ∈ provInContrib kci i l) ∧
        (x ∈ (provInputsLoop kci i l st).nonProviderInputDefs ↔
          x ∈ st.nonProviderInputDefs ∨ x ∈ provInCpuContrib kci i l) := by
  intro l
  induction l with
  | nil =>
      intro i st
      simp [provInputsLoop, provInContrib, provInCpuContrib]
  | cons a t ih =>
      intro i st
      obtain ⟨⟨e1, e2, e3⟩, hmem⟩ := ih (i + 1) (provInputsStep kci i a st)
      obtain ⟨f1, f2, f3⟩ := provInputsStep_fields kci i a st
      simp only [provInputsLoop, provInContrib, provInCpuContrib]
      refine ⟨⟨e1.trans f1, e2.trans f2, e3.trans f3⟩, ?_⟩
      intro x
      obtain ⟨m1, m2⟩ := hmem x
      constructor
      · rw [m1, provInputsStep_pIn kci i a st x, List.mem_append]
        tauto
      · rw [m2, provInputsStep_npIn kci i a st x, List.mem_append]
        tauto

theorem provOutputsStep_fields (kci : Option KernelCreateInfo) (i : Nat) (a : NName)
    (st : TMState) :
    (provOutputsStep kci i a st).providerNodes = st.providerNodes ∧
    (provOutputsStep kci i a st).providerInputDefs = st.providerInputDefs ∧
    (provOutputsStep kci i a st).nonProviderInputDefs = st.nonProviderInputDefs := by
  unfold provOutputsStep
  by_cases he : a.existsArg = false
  · rw [if_pos he]
    exact ⟨rfl, rfl, rfl⟩
  · rw [if_neg he]
    cases kci with
    | none => exact ⟨rfl, rfl, rfl⟩
    | some k => by_cases h : k.outputMemTypeOnCpu i <;> simp [h]

theorem provOutputsStep_pOut (kci : Option KernelCreateInfo) (i : Nat) (a : NName)
    (st : TMState) (x : NName) :
    x ∈ (provOutputsStep kci i a st).providerOutputDefs ↔
      x ∈ st.providerOutputDefs ∨ x ∈ provOutSingle kci i a := by
  unfold provOutputsStep provOutSingle
  by_cases he : a.existsArg = false
  · rw [if_pos he, if_pos he]
    simp
  · rw [if_neg he, if_neg he]
    cases kci with
    | none =>
        simp only [mem_insertName, List.mem_singleton]
        tauto
    | some k =>
        by_cases h : k.outputMemTypeOnCpu i <;>
          simp [h, mem_insertName] <;> tauto

theorem provOutputsStep_npOut (kci : Option KernelCreateInfo) (i : Nat) (a : NName)
    (st : TMState) (x : NName) :
    x ∈ (provOutputsStep kci i a st).nonProviderOutputDefs ↔
      x ∈ st.nonProviderOutputDefs ∨ x ∈ provOutCpuSingle kci i a := by
  unfold provOutputsStep provOutCpuSingle
  by_cases he : a.existsArg = false
  · rw [if_pos he, if_pos he]
    simp
  · rw [if_neg he, if_neg he]
    cases kci with
    | none =>
        simp only [List.not_mem_nil]
        tauto
    | some k =>
        by_cases h : k.outputMemTypeOnCpu i <;>
          simp [h, mem_insertName] <;> tauto

theorem provOutputsLoop_spec (kci : Option KernelCreateInfo) :
    ∀ (l : List NName) (i : Nat) (st : TMState),
      ((provOutputsLoop kci i l st).providerNodes = st.providerNodes ∧
       (provOutputsLoop kci i l st).providerInputDefs = st.providerInputDefs ∧
       (provOutputsLoop kci i l st).nonProviderInputDefs = st.nonProviderInputDefs) ∧
      ∀ x : NName,
        (x ∈ (provOutputsLoop kci i l st).providerOutputDefs ↔
          x ∈ st.providerOutputDefs ∨ x ∈ provOutContrib kci i l) ∧
        (x ∈ (provOutputsLoop kci i l st).nonProviderOutputDefs ↔
          x ∈ st.nonProviderOutputDefs ∨ x ∈ provOutCpuContrib kci i l) := by
  intro l
  induction l with
  | nil =>
      intro i st
      simp [provOutputsLoop, provOutContrib, provOutCpuContrib]
  | cons a t ih =>
      intro i st
      obtain ⟨⟨e1, e2, e3⟩, hmem⟩ := ih (i + 1) (provOutputsStep kci i a st)
      obtain ⟨f1, f2, f3⟩ := provOutputsStep_fields kci i a st
      simp only [provOutputsLoop, provOutContrib, provOutCpuContrib]
      refine ⟨⟨e1.trans f1, e2.trans f2, e3.trans f3⟩, ?_⟩
      intro x
      obtain ⟨m1, m2⟩ := hmem x
      constructor
      · rw [m1, provOutputsStep_pOut kci i a st x, List.mem_append]
        tauto
      · rw [m2, provOutputsStep_npOut kci i a st x, List.mem_append]
        tauto

theorem npInputsLoop_spec :
    ∀ (l : List NName) (st : TMState),
      ((npInputsLoop l st).providerNodes = st.providerNodes ∧
       (npInputsLoop l st).providerInputDefs = st.providerInputDefs ∧
       (npInputsLoop l st).providerOutputDefs = st.providerOutputDefs ∧
       (npInputsLoop l st).nonProviderOutputDefs = st.nonProviderOutputDefs) ∧
      ∀ x : NName,
        x ∈ (npInputsLoop l st).nonProviderInputDefs ↔
          x ∈ st.nonProviderInputDefs ∨ x ∈ existsFilter l := by
  intro l
  induction l with
  | nil =>
      intro st
      simp [npInputsLoop, existsFilter]
  | cons a t ih =>
      intro st
      by_cases he : a.existsArg
      · obtain ⟨⟨e1, e2, e3, e4⟩, hmem⟩ :=
          ih { st with nonProviderInputDefs := insertName a st.nonProviderInputDefs }
        simp only [npInputsLoop, if_pos he]
        refine ⟨⟨e1, e2, e3, e4⟩, ?_⟩
        intro x
        rw [hmem x]
        simp only [mem_insertName, existsFilter, List.filter_cons, he, if_true,
          List.mem_cons]
        tauto
      · obtain ⟨⟨e1, e2, e3, e4⟩, hmem⟩ := ih st
        simp only [npInputsLoop, if_neg he]
        refine ⟨⟨e1, e2, e3, e4⟩, ?_⟩
        intro x
        rw [hmem x]
        have : a.existsArg = false := by
          cases h : a.existsArg
          · rfl
          · exact absurd h he
        simp only [existsFilter, List.filter_cons, this]
        simp

theorem npOutputsLoop_spec :
    ∀ (l : List NName) (st : TMState),
      ((npOutputsLoop l st).providerNodes = st.providerNodes ∧
       (npOutputsLoop l st).providerInputDefs = st.providerInputDefs ∧
       (npOutputsLoop l st).providerOutputDefs = st.providerOutputDefs ∧
       (npOutputsLoop l st).nonProviderInputDefs = st.nonProviderInputDefs) ∧
      ∀ x : NName,
        x ∈ (npOutputsLoop l st).nonProviderOutputDefs ↔
          x ∈ st.nonProviderOutputDefs ∨ x ∈ existsFilter l := by
  intro l
  induction l with
  | nil =>
      intro st
      simp [npOutputsLoop, existsFilter]
  | cons a t ih =>
      intro st
      by_cases he : a.existsArg
      · obtain ⟨⟨e1, e2, e3, e4⟩, hmem⟩ :=
          ih { st with nonProviderOutputDefs := insertName a st.nonProviderOutputDefs }
        simp only [npOutputsLoop, if_pos he]
        refine ⟨⟨e1, e2, e3, e4⟩, ?_⟩
        intro x
        rw [hmem x]
        simp only [mem_insertName, existsFilter, List.filter_cons, he, if_true,
          List.mem_cons]
        tauto
      · obtain ⟨⟨e1, e2, e3, e4⟩, hmem⟩ := ih st
        simp only [npOutputsLoop, if_neg he]
        refine ⟨⟨e1, e2, e3, e4⟩, ?_⟩
        intro x
        rw [hmem x]
        have : a.existsArg = false := by
          cases h : a.existsArg
          · rfl
          · exact absurd h he
        simp only [existsFilter, List.filter_cons, this]
        simp

/-! ### ProcessDefs characterization -/

/-- Whether ProcessDefs throws on this node (transformer_memcpy.cc lines
94-97). -/
def nodeThrows (provider : String) (n : TNode) : Bool :=
  decide (n.provider ≠ provider ∧ n.provider ≠ kCpuExecutionProvider ∧ n.provider ≠ "")

def nodePIn (reg : KernelRegistry) (provider : String) (n : TNode) : List NName :=
  if n.provider = provider then provInContrib (reg n.opType) 0 n.inputDefs else []

def nodeNpIn (reg : KernelRegistry) (provider : String) (n : TNode) : List NName :=
  if n.provider = provider then provInCpuContrib (reg n.opType) 0 n.inputDefs
  else existsFilter n.inputDefs ++ existsFilter n.implicitInputDefs

def nodePOut (reg : KernelRegistry) (provider : String) (n : TNode) : List NName :=
  if n.provider = provider then provOutContrib (reg n.opType) 0 n.outputDefs else []

def nodeNpOut (reg : KernelRegistry) (provider : String) (n : TNode) : List NName :=
  if n.provider = provider then provOutCpuContrib (reg n.opType) 0 n.outputDefs
  else existsFilter n.outputDefs

theorem processDefs_throws (reg : KernelRegistry) (provider : String) (idx : Nat)
    (n : TNode) (st : TMState) (h : nodeThrows provider n = true) :
    processDefs reg provider idx n st =
      Except.error "Execution type does not support memcpy" := by
  have h2 : n.provider ≠ provider ∧ n.provider ≠ kCpuExecutionProvider ∧ n.provider ≠ "" :=
    of_decide_eq_true h
  unfold processDefs
  rw [if_neg h2.1, if_pos h2.2]

theorem processDefs_spec (reg : KernelRegistry) (provider : String) (idx : Nat)
    (n : TNode) (st : TMState) (h : nodeThrows provider n = false) :
    ∃ st1, processDefs reg provider idx n st = Except.ok st1 ∧
      (∀ j : Nat, j ∈ st1.providerNodes ↔
        j ∈ st.providerNodes ∨ (j = idx ∧ n.provider = provider)) ∧
      (∀ x : NName, x ∈ st1.providerInputDefs ↔
        x ∈ st.providerInputDefs ∨ x ∈ nodePIn reg provider n) ∧
      (∀ x : NName, x ∈ st1.nonProviderInputDefs ↔
        x ∈ st.nonProviderInputDefs ∨ x ∈ nodeNpIn reg provider n) ∧
      (∀ x : NName, x ∈ st1.providerOutputDefs ↔
        x ∈ st.providerOutputDefs ∨ x ∈ nodePOut reg provider n) ∧
      (∀ x : NName, x ∈ st1.nonProviderOutputDefs ↔
        x ∈ st.nonProviderOutputDefs ∨ x ∈ nodeNpOut reg provider n) := by
  by_cases hp : n.provider = provider
  · refine ⟨provOutputsLoop (reg n.opType) 0 n.outputDefs
        (provInputsLoop (reg n.opType) 0 n.inputDefs
          { st with providerNodes := insertNat idx st.providerNodes }), ?_, ?_⟩
    · unfold processDefs
      rw [if_pos hp]
    · set st0 := { st with providerNodes := insertNat idx st.providerNodes } with hst0
      obtain ⟨⟨i1, i2, i3⟩, imem⟩ :=
        provInputsLoop_spec (reg n.opType) n.inputDefs 0 st0
      obtain ⟨⟨o1, o2, o3⟩, omem⟩ :=
        provOutputsLoop_spec (reg n.opType) n.outputDefs 0
          (provInputsLoop (reg n.opType) 0 n.inputDefs st0)
      refine ⟨?_, ?_, ?_, ?_, ?_⟩
      · intro j
        rw [o1, i1]
        simp only [hst0]
        rw [mem_insertNat]
        simp [hp]
        tauto
      · intro x
        rw [o2, (imem x).1]
        simp [nodePIn, hp, hst0]
      · intro x
        rw [o3, (imem x).2]
        simp [nodeNpIn, hp, hst0]
      · intro x
        rw [(omem x).1, i2]
        simp [nodePOut, hp, hst0]
      · intro x
        rw [(omem x).2, i3]
        simp [nodeNpOut, hp, hst0]
  · have h2 : ¬(n.provider ≠ kCpuExecutionProvider ∧ n.provider ≠ "") := by
      intro hcon
      rw [nodeThrows, decide_eq_false_iff_not] at h
      exact h ⟨hp, hcon⟩
    refine ⟨npOutputsLoop n.outputDefs
        (npInputsLoop n.implicitInputDefs (npInputsLoop n.inputDefs st)), ?_, ?_⟩
    · unfold processDefs
      rw [if_neg hp, if_neg h2]
    · obtain ⟨⟨a1, a2, a3, a4⟩, amem⟩ := npInputsLoop_spec n.inputDefs st
      obtain ⟨⟨b1, b2, b3, b4⟩, bmem⟩ :=
        npInputsLoop_spec n.implicitInputDefs (npInputsLoop n.inputDefs st)
      obtain ⟨⟨c1, c2, c3, c4⟩, cmem⟩ :=
        npOutputsLoop_spec n.outputDefs
          (npInputsLoop n.implicitInputDefs (npInputsLoop n.inputDefs st))
      refine ⟨?_, ?_, ?_, ?_, ?_⟩
      · intro j
        rw [c1, b1, a1]
        simp [hp]
      · intro x
        rw [c2, b2, a2]
        simp [nodePIn, hp]
      · intro x
        rw [c4, (bmem x), (amem x)]
        simp only [nodeNpIn, if_neg hp, List.mem_append]
        tauto
      · intro x
        rw [c3, b3, a3]
        simp [nodePOut, hp]
      · intro x
        rw [(cmem x), b4, a4]
        simp only [nodeNpOut, if_neg hp]

theorem processAllDefs_spec (reg : KernelRegistry) (provider : String) :
    ∀ (ns : List TNode) (i : Nat) (st st1 : TMState),
      processAllDefs reg provider i ns st = Except.ok st1 →
      (∀ j : Nat, j ∈ st1.providerNodes ↔
        j ∈ st.providerNodes ∨
          ∃ (k : Nat) (h : k < ns.length), j = i + k ∧ (ns.get ⟨k, h⟩).provider = provider) ∧
      (∀ x : NName, x ∈ st1.providerInputDefs ↔
        x ∈ st.providerInputDefs ∨ ∃ n ∈ ns, x ∈ nodePIn reg provider n) ∧
      (∀ x : NName, x ∈ st1.nonProviderInputDefs ↔
        x ∈ st.nonProviderInputDefs ∨ ∃ n ∈ ns, x ∈ nodeNpIn reg provider n) ∧
      (∀ x : NName, x ∈ st1.providerOutputDefs ↔
        x ∈ st.providerOutputDefs ∨ ∃ n ∈ ns, x ∈ nodePOut reg provider n) ∧
      (∀ x : NName, x ∈ st1.nonProviderOutputDefs ↔
        x ∈ st.nonProviderOutputDefs ∨ ∃ n ∈ ns, x ∈ nodeNpOut reg provider n) := by
  intro ns
  induction ns with
  | nil =>
      intro i st st1 hok
      simp only [processAllDefs] at hok
      injection hok with hok
      subst hok
      simp
  | cons n t ih =>
      intro i st st1 hok
      simp only [processAllDefs] at hok
      cases hd : processDefs reg provider i n st with
      | error e =>
          rw [hd] at hok
          cases hok
      | ok stm =>
          rw [hd] at hok
          by_cases hthrow : nodeThrows provider n = true
          · rw [processDefs_throws reg provider i n st hthrow] at hd
            cases hd
          · have hfalse : nodeThrows provider n = false := by
              cases hcase : nodeThrows provider n
              · rfl
              · exact absurd hcase hthrow
            obtain ⟨stm2, heq, hpn, hpi, hni, hpo, hno⟩ :=
              processDefs_spec reg provider i n st hfalse
            rw [heq] at hd
            injection hd with hd
            subst hd
            obtain ⟨tpn, tpi, tni, tpo, tno⟩ := ih (i + 1) stm2 st1 hok
            refine ⟨?_, ?_, ?_, ?_, ?_⟩
            · intro j
              rw [tpn j, hpn j]
              constructor
              · rintro ((hj | ⟨rfl, hprov⟩) | ⟨k, hk, rfl, hprov⟩)
                · exact Or.inl hj
                · exact Or.inr ⟨0, by simp, by omega, by simpa using hprov⟩
                · refine Or.inr ⟨k + 1, by simp; omega, by omega, ?_⟩
                  simpa using hprov
              · rintro (hj | ⟨k, hk, rfl, hprov⟩)
                · exact Or.inl (Or.inl hj)
                · cases k with
                  | zero =>
                      exact Or.inl (Or.inr ⟨by omega, by simpa using hprov⟩)
                  | succ k2 =>
                      refine Or.inr ⟨k2, by simp at hk; omega, by omega, ?_⟩
                      simpa using hprov
            · intro x
              rw [tpi x, hpi x]
              simp only [List.mem_cons]
              constructor
              · rintro ((hx | hx) | ⟨n2, hn2, hx⟩)
                · exact Or.inl hx
                · exact Or.inr ⟨n, Or.inl rfl, hx⟩
                · exact Or.inr ⟨n2, Or.inr hn2, hx⟩
              · rintro (hx | ⟨n2, (rfl | hn2), hx⟩)
                · exact Or.inl (Or.inl hx)
                · exact Or.inl (Or.inr hx)
                · exact Or.inr ⟨n2, hn2, hx⟩
            · intro x
              rw [tni x, hni x]
              simp only [List.mem_cons]
              constructor
              · rintro ((hx | hx) | ⟨n2, hn2, hx⟩)
                · exact Or.inl hx
                · exact Or.inr ⟨n, Or.inl rfl, hx⟩
                · exact Or.inr ⟨n2, Or.inr hn2, hx⟩
              · rintro (hx | ⟨n2, (rfl | hn2), hx⟩)
                · exact Or.inl (Or.inl hx)
                · exact Or.inl (Or.inr hx)
                · exact Or.inr ⟨n2, hn2, hx⟩
            · intro x
              rw [tpo x, hpo x]
              simp only [List.mem_cons]
              constructor
              · rintro ((hx | hx) | ⟨n2, hn2, hx⟩)
                · exact Or.inl hx
                · exact Or.inr ⟨n, Or.inl rfl, hx⟩
                · exact Or.inr ⟨n2, Or.inr hn2, hx⟩
              · rintro (hx | ⟨n2, (rfl | hn2), hx⟩)
                · exact Or.inl (Or.inl hx)
                · exact Or.inl (Or.inr hx)
                · exact Or.inr ⟨n2, hn2, hx⟩
            · intro x
              rw [tno x, hno x]
              simp only [List.mem_cons]
              constructor
              · rintro ((hx | hx) | ⟨n2, hn2, hx⟩)
                · exact Or.inl hx
                · exact Or.inr ⟨n, Or.inl rfl, hx⟩
                · exact Or.inr ⟨n2, Or.inr hn2, hx⟩
              · rintro (hx | ⟨n2, (rfl | hn2), hx⟩)
                · exact Or.inl (Or.inl hx)
                · exact Or.inl (Or.inr hx)
                · exact Or.inr ⟨n2, hn2, hx⟩

theorem processAllDefs_ok_of_no_throw (reg : KernelRegistry) (provider : String) :
    ∀ (ns : List TNode) (i : Nat) (st : TMState),
      (∀ n ∈ ns, nodeThrows provider n = false) →
      ∃ st1, processAllDefs reg provider i ns st = Except.ok st1 := by
  intro ns
  induction ns with
  | nil =>
      intro i st _
      exact ⟨st, rfl⟩
  | cons n t ih =>
      intro i st hall
      obtain ⟨stm, heq, _⟩ :=
        processDefs_spec reg provider i n st (hall n (by simp))
      obtain ⟨st1, heq1⟩ := ih (i + 1) stm (fun n2 hn2 => hall n2 (by simp [hn2]))
      refine ⟨st1, ?_⟩
      simp only [processAllDefs, heq]
      exact heq1

theorem processAllDefs_no_throw_of_ok (reg : KernelRegistry) (provider : String) :
    ∀ (ns : List TNode) (i : Nat) (st st1 : TMState),
      processAllDefs reg provider i ns st = Except.ok st1 →
      ∀ n ∈ ns, nodeThrows provider n = false := by
  intro ns
  induction ns with
  | nil =>
      intro i st st1 _ n hn
      simp at hn
  | cons n t ih =>
      intro i st st1 hok n2 hn2
      simp only [processAllDefs] at hok
      cases hd : processDefs reg provider i n st with
      | error e =>
          rw [hd] at hok
          cases hok
      | ok stm =>
          rw [hd] at hok
          rcases List.mem_cons.mp hn2 with rfl | hmem
          · by_cases hthrow : nodeThrows provider n2 = true
            · rw [processDefs_throws reg provider i n2 st hthrow] at hd
              cases hd
            · cases hcase : nodeThrows provider n2
              · rfl
              · exact absurd hcase hthrow
          · exact ih (i + 1) stm st1 hok n2 hmem

theorem alookup_mapInsert_none {m : List (NName × NName)} {k k2 v : NName}
    (hne : k ≠ k2) (h : alookup m k2 = none) :
    alookup (mapInsert k v m) k2 = none := by
  unfold mapInsert
  cases hk : alookup m k with
  | some u => exact h
  | none =>
      rw [alookup_append, h]
      simp [alookup, hne]

/-! ### ProcessInitializers loop characterization -/

theorem processInitsLoop_spec (pIn npIn : List NName) :
    ∀ (l : List (NName × Nat)) (g : TGraph) (repl : List (NName × NName)),
      ((processInitsLoop pIn npIn l g repl).1.nodes = g.nodes ∧
       (processInitsLoop pIn npIn l g repl).1.graphInputs = g.graphInputs ∧
       (processInitsLoop pIn npIn l g repl).1.graphOutputs = g.graphOutputs ∧
       g.nameCounter ≤ (processInitsLoop pIn npIn l g repl).1.nameCounter) ∧
      (∃ rest, (processInitsLoop pIn npIn l g repl).1.inits = g.inits ++ rest ∧
        ∀ p ∈ rest, ∃ j, g.nameCounter ≤ j ∧ p.1 = NName.gen j) ∧
      (∀ k v, alookup repl k = some v →
        alookup (processInitsLoop pIn npIn l g repl).2 k = some v) ∧
      (∀ k v, alookup (processInitsLoop pIn npIn l g repl).2 k = some v →
        alookup repl k = some v ∨
          (k ∈ pIn ∧ k ∈ npIn ∧ (∃ d, (k, d) ∈ l) ∧
           ∃ j, g.nameCounter ≤ j ∧ v = NName.gen j)) ∧
      (∀ wd ∈ l, wd.1 ∈ pIn → wd.1 ∈ npIn →
        (alookup (processInitsLoop pIn npIn l g repl).2 wd.1).isSome = true) := by
  intro l
  induction l with
  | nil =>
      intro g repl
      refine ⟨⟨rfl, rfl, rfl, le_refl _⟩, ⟨[], by simp [processInitsLoop], by simp⟩, ?_, ?_, ?_⟩
      · intro k v h
        exact h
      · intro k v h
        exact Or.inl h
      · intro wd hwd
        simp at hwd
  | cons wd t ih =>
      intro g repl
      by_cases hw : wd.1 ∈ pIn ∧ wd.1 ∈ npIn
      · have hloop : processInitsLoop pIn npIn (wd :: t) g repl =
            processInitsLoop pIn npIn t
              { g with nameCounter := g.nameCounter + 1, inits := g.inits ++ [(NName.gen g.nameCounter, wd.2)] }
              (mapInsert wd.1 (NName.gen g.nameCounter) repl) := by
          simp only [processInitsLoop, if_pos hw, genNodeArgName]
        set g2 : TGraph := { g with nameCounter := g.nameCounter + 1, inits := g.inits ++ [(NName.gen g.nameCounter, wd.2)] } with hg2
        set repl2 := mapInsert wd.1 (NName.gen g.nameCounter) repl with hrepl2
        obtain ⟨⟨e1, e2, e3, e4⟩, ⟨rest, hre, hrf⟩, hpres, hinv, htot⟩ := ih g2 repl2
        rw [hloop]
        refine ⟨⟨e1, e2, e3, ?_⟩, ?_, ?_, ?_, ?_⟩
        · refine le_trans ?_ e4
          simp [hg2]
        · refine ⟨(NName.gen g.nameCounter, wd.2) :: rest, ?_, ?_⟩
          · rw [hre]
            simp [hg2]
          · intro p hp
            rcases List.mem_cons.mp hp with rfl | hp2
            · exact ⟨g.nameCounter, le_refl _, rfl⟩
            · obtain ⟨j, hj, hpj⟩ := hrf p hp2
              refine ⟨j, ?_, hpj⟩
              have : g.nameCounter + 1 ≤ j := by simpa [hg2] using hj
              omega
        · intro k v h
          exact hpres k v (alookup_mapInsert_of_some h)
        · intro k v h
          rcases hinv k v h with h2 | ⟨hk1, hk2, ⟨d, hd⟩, j, hj, hv⟩
          · rcases alookup_mapInsert_inv h2 with h3 | ⟨rfl, rfl⟩
            · exact Or.inl h3
            · exact Or.inr ⟨hw.1, hw.2, ⟨wd.2, by simp⟩,
                g.nameCounter, le_refl _, rfl⟩
          · refine Or.inr ⟨hk1, hk2, ⟨d, by simp [hd]⟩, j, ?_, hv⟩
            have : g.nameCounter + 1 ≤ j := by simpa [hg2] using hj
            omega
        · intro wd2 hwd2 h1 h2
          rcases List.mem_cons.mp hwd2 with rfl | hmem
          · have hsome : (alookup repl2 wd2.1).isSome = true := by
              rw [hrepl2]
              exact alookup_mapInsert_self
            obtain ⟨v, hv⟩ := Option.isSome_iff_exists.mp hsome
            rw [hpres wd2.1 v hv]
            rfl
          · exact htot wd2 hmem h1 h2
      · have hloop : processInitsLoop pIn npIn (wd :: t) g repl =
            processInitsLoop pIn npIn t g repl := by
          simp only [processInitsLoop, if_neg hw]
        obtain ⟨hfields, ⟨rest, hre, hrf⟩, hpres, hinv, htot⟩ := ih g repl
        rw [hloop]
        refine ⟨hfields, ⟨rest, hre, hrf⟩, hpres, ?_, ?_⟩
        · intro k v h
          rcases hinv k v h with h2 | ⟨hk1, hk2, ⟨d, hd⟩, hfr⟩
          · exact Or.inl h2
          · exact Or.inr ⟨hk1, hk2, ⟨d, by simp [hd]⟩, hfr⟩
        · intro wd2 hwd2 h1 h2
          rcases List.mem_cons.mp hwd2 with rfl | hmem
          · exact absurd ⟨h1, h2⟩ hw
          · exact htot wd2 hmem h1 h2

/-- Precise clone binding: a uniquely keyed initializer entry found in
both sets ends bound to a fresh generated name whose clone (same payload)
is in the result inits. -/
theorem processInitsLoop_clone (pIn npIn : List NName) :
    ∀ (l : List (NName × Nat)) (g : TGraph) (repl : List (NName × NName))
      (w : NName) (d : Nat),
      (w, d) ∈ l → w ∈ pIn → w ∈ npIn → alookup repl w = none →
      (∀ d2, (w, d2) ∈ l → d2 = d) →
      ∃ v, alookup (processInitsLoop pIn npIn l g repl).2 w = some v ∧
        (∃ j, g.nameCounter ≤ j ∧ v = NName.gen j) ∧
        (v, d) ∈ (processInitsLoop pIn npIn l g repl).1.inits := by
  intro l
  induction l with
  | nil =>
      intro g repl w d hmem
      simp at hmem
  | cons wd t ih =>
      intro g repl w d hmem hp hnp hnone huniq
      by_cases hww : wd.1 = w
      · have hwhit : wd.1 ∈ pIn ∧ wd.1 ∈ npIn := ⟨hww ▸ hp, hww ▸ hnp⟩
        have hd2 : wd.2 = d := huniq wd.2 (by rw [← hww]; simp)
        have hloop : processInitsLoop pIn npIn (wd :: t) g repl =
            processInitsLoop pIn npIn t
              { g with nameCounter := g.nameCounter + 1, inits := g.inits ++ [(NName.gen g.nameCounter, wd.2)] }
              (mapInsert wd.1 (NName.gen g.nameCounter) repl) := by
          simp only [processInitsLoop, if_pos hwhit, genNodeArgName]
        rw [hloop]
        set g2 : TGraph := { g with nameCounter := g.nameCounter + 1, inits := g.inits ++ [(NName.gen g.nameCounter, wd.2)] } with hg2
        set repl2 := mapInsert wd.1 (NName.gen g.nameCounter) repl with hrepl2
        obtain ⟨_, ⟨rest, hre, _⟩, hpres, _, _⟩ := processInitsLoop_spec pIn npIn t g2 repl2
        have hbind : alookup repl2 w = some (NName.gen g.nameCounter) := by
          rw [hrepl2, ← hww]
          unfold mapInsert
          rw [hww, hnone, alookup_append, hnone]
          simp [alookup, hww]
        refine ⟨NName.gen g.nameCounter, hpres w _ hbind, ⟨g.nameCounter, le_refl _, rfl⟩, ?_⟩
        rw [hre]
        have : (NName.gen g.nameCounter, d) ∈ g2.inits := by
          simp [hg2, hd2]
        exact List.mem_append.mpr (Or.inl this)
      · have hmem2 : (w, d) ∈ t := by
          rcases List.mem_cons.mp hmem with heq | h2
          · exact absurd (congrArg Prod.fst heq).symm hww
          · exact h2
        have huniq2 : ∀ d2, (w, d2) ∈ t → d2 = d := fun d2 hd2 =>
          huniq d2 (by simp [hd2])
        by_cases hwhit : wd.1 ∈ pIn ∧ wd.1 ∈ npIn
        · have hloop : processInitsLoop pIn npIn (wd :: t) g repl =
              processInitsLoop pIn npIn t
                { g with nameCounter := g.nameCounter + 1, inits := g.inits ++ [(NName.gen g.nameCounter, wd.2)] }
                (mapInsert wd.1 (NName.gen g.nameCounter) repl) := by
            simp only [processInitsLoop, if_pos hwhit, genNodeArgName]
          rw [hloop]
          have hnone2 : alookup (mapInsert wd.1 (NName.gen g.nameCounter) repl) w = none :=
            alookup_mapInsert_none hww hnone
          obtain ⟨v, hv, ⟨j, hj, hvj⟩, hvmem⟩ :=
            ih { g with nameCounter := g.nameCounter + 1, inits := g.inits ++ [(NName.gen g.nameCounter, wd.2)] }
              (mapInsert wd.1 (NName.gen g.nameCounter) repl) w d hmem2 hp hnp hnone2 huniq2
          refine ⟨v, hv, ⟨j, ?_, hvj⟩, hvmem⟩
          simp at hj
          omega
        · have hloop : processInitsLoop pIn npIn (wd :: t) g repl =
              processInitsLoop pIn npIn t g repl := by
            simp only [processInitsLoop, if_neg hwhit]
          rw [hloop]
          exact ih g repl w d hmem2 hp hnp hnone huniq2

/-! ### Copy loop characterization -/

theorem copyLoop_spec (provider : String) (isInput : Bool) (checkSet : List NName) :
    ∀ (iter : List NName) (g : TGraph) (repl : List (NName × NName)) (m : Bool),
      ((copyLoop provider isInput checkSet iter g repl m).1.inits = g.inits ∧
       (copyLoop provider isInput checkSet iter g repl m).1.graphInputs = g.graphInputs ∧
       (copyLoop provider isInput checkSet iter g repl m).1.graphOutputs = g.graphOutputs ∧
       g.nameCounter ≤ (copyLoop provider isInput checkSet iter g repl m).1.nameCounter) ∧
      (∃ extra, (copyLoop provider isInput checkSet iter g repl m).1.nodes = g.nodes ++ extra ∧
        ∀ nd ∈ extra, ∃ a j, a ∈ iter ∧ a ∈ checkSet ∧ g.nameCounter ≤ j ∧
          nd = memNode provider isInput a (NName.gen j)) ∧
      (∀ k v, alookup repl k = some v →
        alookup (copyLoop provider isInput checkSet iter g repl m).2.1 k = some v) ∧
      (∀ k v, alookup (copyLoop provider isInput checkSet iter g repl m).2.1 k = some v →
        alookup repl k = some v ∨
          (k ∈ iter ∧ k ∈ checkSet ∧ ∃ j, g.nameCounter ≤ j ∧ v = NName.gen j)) ∧
      (∀ a ∈ iter, a ∈ checkSet →
        (alookup (copyLoop provider isInput checkSet iter g repl m).2.1 a).isSome = true) := by
  intro iter
  induction iter with
  | nil =>
      intro g repl m
      refine ⟨⟨rfl, rfl, rfl, le_refl _⟩, ⟨[], by simp [copyLoop], by simp⟩, ?_, ?_, ?_⟩
      · intro k v h
        exact h
      · intro k v h
        exact Or.inl h
      · intro a ha
        simp at ha
  | cons a t ih =>
      intro g repl m
      by_cases ha : a ∈ checkSet
      · have hloop : copyLoop provider isInput checkSet (a :: t) g repl m =
            copyLoop provider isInput checkSet t
              { g with nodes := g.nodes ++ [memNode provider isInput a (NName.gen g.nameCounter)], nameCounter := g.nameCounter + 1 }
              (mapInsert a (NName.gen g.nameCounter) repl) true := by
          simp only [copyLoop, if_pos ha, addCopyNode_eq]
        rw [hloop]
        set g2 : TGraph :=
          { g with nodes := g.nodes ++ [memNode provider isInput a (NName.gen g.nameCounter)], nameCounter := g.nameCounter + 1 } with hg2
        set repl2 := mapInsert a (NName.gen g.nameCounter) repl with hrepl2
        obtain ⟨⟨e1, e2, e3, e4⟩, ⟨extra, hex, hexf⟩, hpres, hinv, htot⟩ := ih g2 repl2 true
        refine ⟨⟨e1, e2, e3, ?_⟩, ?_, ?_, ?_, ?_⟩
        · refine le_trans ?_ e4
          simp [hg2]
        · refine ⟨memNode provider isInput a (NName.gen g.nameCounter) :: extra, ?_, ?_⟩
          · rw [hex]
            simp [hg2]
          · intro nd hnd
            rcases List.mem_cons.mp hnd with rfl | hnd2
            · exact ⟨a, g.nameCounter, by simp, ha, le_refl _, rfl⟩
            · obtain ⟨a2, j, ha2, hc2, hj, hnd3⟩ := hexf nd hnd2
              refine ⟨a2, j, by simp [ha2], hc2, ?_, hnd3⟩
              have : g.nameCounter + 1 ≤ j := by simpa [hg2] using hj
              omega
        · intro k v h
          exact hpres k v (alookup_mapInsert_of_some h)
        · intro k v h
          rcases hinv k v h with h2 | ⟨hk1, hk2, j, hj, hv⟩
          · rcases alookup_mapInsert_inv h2 with h3 | ⟨rfl, rfl⟩
            · exact Or.inl h3
            · exact Or.inr ⟨by simp, ha, g.nameCounter, le_refl _, rfl⟩
          · refine Or.inr ⟨by simp [hk1], hk2, j, ?_, hv⟩
            have : g.nameCounter + 1 ≤ j := by simpa [hg2] using hj
            omega
        · intro a2 ha2 hc2
          rcases List.mem_cons.mp ha2 with rfl | hmem
          · have hsome : (alookup repl2 a2).isSome = true := by
              rw [hrepl2]
              exact alookup_mapInsert_self
            obtain ⟨v, hv⟩ := Option.isSome_iff_exists.mp hsome
            rw [hpres a2 v hv]
            rfl
          · exact htot a2 hmem hc2
      · have hloop : copyLoop provider isInput checkSet (a :: t) g repl m =
            copyLoop provider isInput checkSet t g repl m := by
          simp only [copyLoop, if_neg ha]
        rw [hloop]
        obtain ⟨hfields, ⟨extra, hex, hexf⟩, hpres, hinv, htot⟩ := ih g repl m
        refine ⟨hfields, ?_, hpres, ?_, ?_⟩
        · refine ⟨extra, hex, ?_⟩
          intro nd hnd
          obtain ⟨a2, j, ha2, hc2, hj, hnd3⟩ := hexf nd hnd
          exact ⟨a2, j, by simp [ha2], hc2, hj, hnd3⟩
        · intro k v h
          rcases hinv k v h with h2 | ⟨hk1, hk2, hfr⟩
          · exact Or.inl h2
          · exact Or.inr ⟨by simp [hk1], hk2, hfr⟩
        · intro a2 ha2 hc2
          rcases List.mem_cons.mp ha2 with rfl | hmem
          · exact absurd hc2 ha
          · exact htot a2 hmem hc2

/-! ### Contribution computation lemmas -/

theorem provInContrib_none : ∀ (i : Nat) (l : List NName), provInContrib none i l = l := by
  intro i l
  induction l generalizing i with
  | nil => rfl
  | cons a t ih => simp [provInContrib, provInSingle, ih]

theorem provInCpuContrib_none : ∀ (i : Nat) (l : List NName),
    provInCpuContrib none i l = [] := by
  intro i l
  induction l generalizing i with
  | nil => rfl
  | cons a t ih => simp [provInCpuContrib, provInCpuSingle, ih]

theorem provOutContrib_none : ∀ (i : Nat) (l : List NName),
    provOutContrib none i l = existsFilter l := by
  intro i l
  induction l generalizing i with
  | nil => rfl
  | cons a t ih =>
      simp only [provOutContrib]
      rw [ih (i + 1)]
      unfold provOutSingle existsFilter
      rw [List.filter_cons]
      cases he : a.existsArg <;> simp [he]

theorem provOutCpuContrib_none : ∀ (i : Nat) (l : List NName),
    provOutCpuContrib none i l = [] := by
  intro i l
  induction l generalizing i with
  | nil => rfl
  | cons a t ih =>
      by_cases he : a.existsArg = false <;> simp [provOutCpuContrib, provOutCpuSingle, he, ih]

theorem mem_provInContrib : ∀ (kci : Option KernelCreateInfo) (i : Nat) (l : List NName)
    (x : NName), x ∈ provInContrib kci i l → x ∈ l := by
  intro kci i l
  induction l generalizing i with
  | nil => intro x hx; simp [provInContrib] at hx
  | cons a t ih =>
      intro x hx
      simp only [provInContrib, List.mem_append] at hx
      rcases hx with hx | hx
      · unfold provInSingle at hx
        cases kci with
        | none => simp at hx; simp [hx]
        | some k =>
            by_cases h : k.inputMemTypeOnCpu i <;> simp [h] at hx <;> simp [hx]
      · exact List.mem_cons.mpr (Or.inr (ih (i + 1) x hx))

theorem mem_provInCpuContrib : ∀ (kci : Option KernelCreateInfo) (i : Nat) (l : List NName)
    (x : NName), x ∈ provInCpuContrib kci i l → x ∈ l := by
  intro kci i l
  induction l generalizing i with
  | nil => intro x hx; simp [provInCpuContrib] at hx
  | cons a t ih =>
      intro x hx
      simp only [provInCpuContrib, List.mem_append] at hx
      rcases hx with hx | hx
      · unfold provInCpuSingle at hx
        cases kci with
        | none => simp at hx
        | some k =>
            by_cases h : k.inputMemTypeOnCpu i <;> simp [h] at hx <;> simp [hx]
      · exact List.mem_cons.mpr (Or.inr (ih (i + 1) x hx))

theorem mem_provOutContrib : ∀ (kci : Option KernelCreateInfo) (i : Nat) (l : List NName)
    (x : NName), x ∈ provOutContrib kci i l → x ∈ l ∧ x.existsArg = true := by
  intro kci i l
  induction l generalizing i with
  | nil => intro x hx; simp [provOutContrib] at hx
  | cons a t ih =>
      intro x hx
      simp only [provOutContrib, List.mem_append] at hx
      rcases hx with hx | hx
      · unfold provOutSingle at hx
        by_cases he : a.existsArg = false
        · simp [he] at hx
        · have he2 : a.existsArg = true := by
            cases h : a.existsArg
            · exact absurd h he
            · rfl
          rw [if_neg he] at hx
          cases kci with
          | none =>
              simp at hx
              subst hx
              exact ⟨by simp, he2⟩
          | some k =>
              by_cases h : k.outputMemTypeOnCpu i
              · simp [h] at hx
              · simp [h] at hx
                subst hx
                exact ⟨by simp, he2⟩
      · obtain ⟨h1, h2⟩ := ih (i + 1) x hx
        exact ⟨List.mem_cons.mpr (Or.inr h1), h2⟩

theorem mem_provOutCpuContrib : ∀ (kci : Option KernelCreateInfo) (i : Nat) (l : List NName)
    (x : NName), x ∈ provOutCpuContrib kci i l → x ∈ l ∧ x.existsArg = true := by
  intro kci i l
  induction l generalizing i with
  | nil => intro x hx; simp [provOutCpuContrib] at hx
  | cons a t ih =>
      intro x hx
      simp only [provOutCpuContrib, List.mem_append] at hx
      rcases hx with hx | hx
      · unfold provOutCpuSingle at hx
        by_cases he : a.existsArg = false
        · simp [he] at hx
        · have he2 : a.existsArg = true := by
            cases h : a.existsArg
            · exact absurd h he
            · rfl
          rw [if_neg he] at hx
          cases kci with
          | none => simp at hx
          | some k =>
              by_cases h : k.outputMemTypeOnCpu i
              · simp [h] at hx
                subst hx
                exact ⟨by simp, he2⟩
              · simp [h] at hx
      · obtain ⟨h1, h2⟩ := ih (i + 1) x hx
        exact ⟨List.mem_cons.mpr (Or.inr h1), h2⟩

theorem mem_existsFilter {l : List NName} {x : NName} (hx : x ∈ existsFilter l) :
    x ∈ l ∧ x.existsArg = true := by
  unfold existsFilter at hx
  exact ⟨List.mem_of_mem_filter hx, by simpa using List.of_mem_filter hx⟩

theorem mem_existsFilter_iff {l : List NName} {x : NName} :
    x ∈ existsFilter l ↔ x ∈ l ∧ x.existsArg = true := by
  unfold existsFilter
  simp [List.mem_filter]

/-- The registry entry for an ordinary (non-Memcpy) operator. -/
theorem specRegistry_none {op : String} (h1 : op ≠ "MemcpyFromHost")
    (h2 : op ≠ "MemcpyToHost") : specRegistry op = none := by
  unfold specRegistry
  rw [if_neg h1, if_neg h2]

/-! ### Contributions of Memcpy nodes under the modelled registry -/

theorem memNode_fromHost_contribs (B : String) (a : NName) (j : Nat) :
    nodePIn specRegistry B (memNode B true a (NName.gen j)) = [] ∧
    nodeNpIn specRegistry B (memNode B true a (NName.gen j)) = [a] ∧
    nodePOut specRegistry B (memNode B true a (NName.gen j)) = [NName.gen j] ∧
    nodeNpOut specRegistry B (memNode B true a (NName.gen j)) = [] := by
  refine ⟨?_, ?_, ?_, ?_⟩
  · simp [nodePIn, memNode, specRegistry, provInContrib, provInSingle, memcpyFromHostKci]
  · simp [nodeNpIn, memNode, specRegistry, provInCpuContrib, provInCpuSingle,
      memcpyFromHostKci]
  · simp [nodePOut, memNode, specRegistry, provOutContrib, provOutSingle,
      memcpyFromHostKci, NName.existsArg]
  · simp [nodeNpOut, memNode, specRegistry, provOutCpuContrib, provOutCpuSingle,
      memcpyFromHostKci, NName.existsArg]

theorem memNode_toHost_contribs (B : String) (a : NName) (j : Nat) :
    nodePIn specRegistry B (memNode B false a (NName.gen j)) = [NName.gen j] ∧
    nodeNpIn specRegistry B (memNode B false a (NName.gen j)) = [] ∧
    nodePOut specRegistry B (memNode B false a (NName.gen j)) = [] ∧
    nodeNpOut specRegistry B (memNode B false a (NName.gen j)) = existsFilter [a] := by
  refine ⟨?_, ?_, ?_, ?_⟩
  · simp [nodePIn, memNode, specRegistry, provInContrib, provInSingle, memcpyToHostKci]
  · simp [nodeNpIn, memNode, specRegistry, provInCpuContrib, provInCpuSingle,
      memcpyToHostKci]
  · simp [nodePOut, memNode, specRegistry, provOutContrib, provOutSingle,
      memcpyToHostKci, NName.existsArg]
  · simp only [nodeNpOut, memNode, specRegistry]
    simp only [provOutCpuContrib, provOutCpuSingle, existsFilter, List.filter_cons,
      List.filter_nil]
    cases he : a.existsArg <;> simp [he, memcpyToHostKci]

/-! ### graphNames and freshness -/

theorem mem_graphNames_of_node {g : TGraph} {n : TNode} {x : NName}
    (hn : n ∈ g.nodes) (hx : x ∈ nodeNames n) : x ∈ graphNames g := by
  unfold graphNames
  refine List.mem_append.mpr (Or.inl ?_)
  exact List.mem_flatMap.mpr ⟨n, hn, hx⟩

theorem mem_graphNames_of_init {g : TGraph} {w : NName} {d : Nat}
    (hw : (w, d) ∈ g.inits) : w ∈ graphNames g := by
  unfold graphNames
  refine List.mem_append.mpr (Or.inr ?_)
  exact List.mem_map.mpr ⟨(w, d), hw, rfl⟩

theorem counterFresh_not_mem {g : TGraph} (hf : counterFresh g = true) {j : Nat}
    (hj : g.nameCounter ≤ j) : NName.gen j ∉ graphNames g := by
  intro hmem
  unfold counterFresh at hf
  have := List.all_eq_true.mp hf (NName.gen j) hmem
  simp at this
  omega

/-- An initializer loop in which no entry lies in both sets does
nothing. -/
theorem processInitsLoop_no_hit (pIn npIn : List NName) :
    ∀ (l : List (NName × Nat)) (g : TGraph) (repl : List (NName × NName)),
      (∀ wd ∈ l, ¬(wd.1 ∈ pIn ∧ wd.1 ∈ npIn)) →
      processInitsLoop pIn npIn l g repl = (g, repl) := by
  intro l
  induction l with
  | nil => intro g repl _; rfl
  | cons wd t ih =>
      intro g repl h
      have hw : ¬(wd.1 ∈ pIn ∧ wd.1 ∈ npIn) := h wd (by simp)
      simp only [processInitsLoop, if_neg hw]
      exact ih g repl (fun b hb => h b (by simp [hb]))

/-! ### The def sets of a Memcpy-free graph under the modelled registry -/

theorem noMemcpyOps_ops {g : TGraph} (h : noMemcpyOps g = true) {n : TNode}
    (hn : n ∈ g.nodes) : specRegistry n.opType = none := by
  unfold noMemcpyOps at h
  have := List.all_eq_true.mp h n hn
  rw [decide_eq_true_eq] at this
  exact specRegistry_none this.1 this.2

theorem run1_sets {B : String} {g : TGraph} {st : TMState}
    (hok : processAllDefs specRegistry B 0 g.nodes initTMState = Except.ok st)
    (hnm : noMemcpyOps g = true) :
    (∀ x : NName, x ∈ st.providerInputDefs ↔
      ∃ n ∈ g.nodes, n.provider = B ∧ x ∈ n.inputDefs) ∧
    (∀ x : NName, x ∈ st.nonProviderInputDefs ↔
      ∃ n ∈ g.nodes, ¬(n.provider = B) ∧
        (x ∈ existsFilter n.inputDefs ∨ x ∈ existsFilter n.implicitInputDefs)) ∧
    (∀ x : NName, x ∈ st.providerOutputDefs ↔
      ∃ n ∈ g.nodes, n.provider = B ∧ x ∈ existsFilter n.outputDefs) ∧
    (∀ x : NName, x ∈ st.nonProviderOutputDefs ↔
      ∃ n ∈ g.nodes, ¬(n.provider = B) ∧ x ∈ existsFilter n.outputDefs) ∧
    (∀ j : Nat, j ∈ st.providerNodes ↔
      ∃ h : j < g.nodes.length, (g.nodes.get ⟨j, h⟩).provider = B) := by
  obtain ⟨hpn, hpi, hni, hpo, hno⟩ :=
    processAllDefs_spec specRegistry B g.nodes 0 initTMState st hok
  refine ⟨?_, ?_, ?_, ?_, ?_⟩
  · intro x
    rw [hpi x]
    simp only [initTMState, List.not_mem_nil, false_or]
    constructor
    · rintro ⟨n, hn, hx⟩
      unfold nodePIn at hx
      by_cases hp : n.provider = B
      · rw [if_pos hp, noMemcpyOps_ops hnm hn, provInContrib_none] at hx
        exact ⟨n, hn, hp, hx⟩
      · rw [if_neg hp] at hx
        simp at hx
    · rintro ⟨n, hn, hp, hx⟩
      refine ⟨n, hn, ?_⟩
      unfold nodePIn
      rw [if_pos hp, noMemcpyOps_ops hnm hn, provInContrib_none]
      exact hx
  · intro x
    rw [hni x]
    simp only [initTMState, List.not_mem_nil, false_or]
    constructor
    · rintro ⟨n, hn, hx⟩
      unfold nodeNpIn at hx
      by_cases hp : n.provider = B
      · rw [if_pos hp, noMemcpyOps_ops hnm hn, provInCpuContrib_none] at hx
        simp at hx
      · rw [if_neg hp] at hx
        exact ⟨n, hn, hp, List.mem_append.mp hx⟩
    · rintro ⟨n, hn, hp, hx⟩
      refine ⟨n, hn, ?_⟩
      unfold nodeNpIn
      rw [if_neg hp]
      exact List.mem_append.mpr hx
  · intro x
    rw [hpo x]
    simp only [initTMState, List.not_mem_nil, false_or]
    constructor
    · rintro ⟨n, hn, hx⟩
      unfold nodePOut at hx
      by_cases hp : n.provider = B
      · rw [if_pos hp, noMemcpyOps_ops hnm hn, provOutContrib_none] at hx
        exact ⟨n, hn, hp, hx⟩
      · rw [if_neg hp] at hx
        simp at hx
    · rintro ⟨n, hn, hp, hx⟩
      refine ⟨n, hn, ?_⟩
      unfold nodePOut
      rw [if_pos hp, noMemcpyOps_ops hnm hn, provOutContrib_none]
      exact hx
  · intro x
    rw [hno x]
    simp only [initTMState, List.not_mem_nil, false_or]
    constructor
    · rintro ⟨n, hn, hx⟩
      unfold nodeNpOut at hx
      by_cases hp : n.provider = B
      · rw [if_pos hp, noMemcpyOps_ops hnm hn, provOutCpuContrib_none] at hx
        simp at hx
      · rw [if_neg hp] at hx
        exact ⟨n, hn, hp, hx⟩
    · rintro ⟨n, hn, hp, hx⟩
      refine ⟨n, hn, ?_⟩
      unfold nodeNpOut
      rw [if_neg hp]
      exact hx
  · intro j
    rw [hpn j]
    simp only [initTMState, List.not_mem_nil, false_or]
    constructor
    · rintro ⟨k, hk, rfl, hprov⟩
      exact ⟨by omega, by simpa using hprov⟩
    · rintro ⟨h, hprov⟩
      exact ⟨j, h, by omega, hprov⟩

/-- The def sets only hold names that occur in the graph. -/
theorem run1_sets_sub {B : String} {g : TGraph} {st : TMState}
    (hok : processAllDefs specRegistry B 0 g.nodes initTMState = Except.ok st)
    (hnm : noMemcpyOps g = true) :
    (∀ x : NName, x ∈ st.providerInputDefs → x ∈ graphNames g) ∧
    (∀ x : NName, x ∈ st.nonProviderInputDefs → x ∈ graphNames g ∧ x.existsArg = true) ∧
    (∀ x : NName, x ∈ st.providerOutputDefs → x ∈ graphNames g ∧ x.existsArg = true) ∧
    (∀ x : NName, x ∈ st.nonProviderOutputDefs → x ∈ graphNames g ∧ x.existsArg = true) := by
  obtain ⟨s1, s2, s3, s4, _⟩ := run1_sets hok hnm
  refine ⟨?_, ?_, ?_, ?_⟩
  · intro x hx
    obtain ⟨n, hn, _, hmem⟩ := (s1 x).mp hx
    exact mem_graphNames_of_node hn (by unfold nodeNames; simp [hmem])
  · intro x hx
    obtain ⟨n, hn, _, hmem⟩ := (s2 x).mp hx
    rcases hmem with hmem | hmem <;> obtain ⟨hin, hex⟩ := mem_existsFilter hmem
    · exact ⟨mem_graphNames_of_node hn (by unfold nodeNames; simp [hin]), hex⟩
    · exact ⟨mem_graphNames_of_node hn (by unfold nodeNames; simp [hin]), hex⟩
  · intro x hx
    obtain ⟨n, hn, _, hmem⟩ := (s3 x).mp hx
    obtain ⟨hin, hex⟩ := mem_existsFilter hmem
    exact ⟨mem_graphNames_of_node hn (by unfold nodeNames; simp [hin]), hex⟩
  · intro x hx
    obtain ⟨n, hn, _, hmem⟩ := (s4 x).mp hx
    obtain ⟨hin, hex⟩ := mem_existsFilter hmem
    exact ⟨mem_graphNames_of_node hn (by unfold nodeNames; simp [hin]), hex⟩

/-! ### Decomposition of one run of the pass -/

/-- The rewrite ModifyGraph applies to a node: provider nodes get their
defs replaced, other nodes are untouched. -/
def condRewrite (B : String) (m : List (NName × NName)) (n : TNode) : TNode :=
  if n.provider = B then replaceDefs m n else n

theorem condRewrite_provider (B : String) (m : List (NName × NName)) (n : TNode) :
    (condRewrite B m n).provider = n.provider := by
  unfold condRewrite
  split
  · rfl
  · rfl

theorem condRewrite_opType (B : String) (m : List (NName × NName)) (n : TNode) :
    (condRewrite B m n).opType = n.opType := by
  unfold condRewrite
  split
  · rfl
  · rfl

theorem replaceDefs_twice (r1 r2 : List (NName × NName)) (n : TNode) :
    replaceDefs r2 (replaceDefs r1 n) =
      { n with
        inputDefs := n.inputDefs.map (fun x => replOne r2 (replOne r1 x)),
        implicitInputDefs := n.implicitInputDefs.map (fun x => replOne r2 (replOne r1 x)),
        outputDefs := n.outputDefs.map (fun x => replOne r2 (replOne r1 x)) } := by
  cases n
  simp [replaceDefs, List.map_map]

/-- Everything the later proofs need about one successful run of
ModifyGraph: the shape of the result graph and the properties of the two
replacement maps. -/
def run1Props (B : String) (g g1 : TGraph) (st : TMState)
    (r1 r2 : List (NName × NName)) (mem : List TNode) : Prop :=
  (g1.nodes = g.nodes.map (fun n => condRewrite B r2 (condRewrite B r1 n)) ++ mem) ∧
  (∃ rest, g1.inits = g.inits ++ rest ∧
    ∀ p ∈ rest, ∃ j, g.nameCounter ≤ j ∧ p.1 = NName.gen j) ∧
  (∀ nd ∈ mem, ∃ a j, g.nameCounter ≤ j ∧
    ((a ∈ st.nonProviderOutputDefs ∧ a ∈ st.providerInputDefs ∧
        nd = memNode B true a (NName.gen j)) ∨
     (a ∈ st.providerOutputDefs ∧ a ∈ st.nonProviderInputDefs ∧
        nd = memNode B false a (NName.gen j)))) ∧
  (∀ k v, alookup r1 k = some v →
    k ∈ st.providerInputDefs ∧ k ∈ st.nonProviderInputDefs ∧
      (∃ d, (k, d) ∈ g.inits) ∧ ∃ j, g.nameCounter ≤ j ∧ v = NName.gen j) ∧
  (∀ k v, alookup r2 k = some v →
    ((k ∈ st.nonProviderOutputDefs ∧ k ∈ st.providerInputDefs) ∨
     (k ∈ st.providerOutputDefs ∧ k ∈ st.nonProviderInputDefs)) ∧
      ∃ j, g.nameCounter ≤ j ∧ v = NName.gen j) ∧
  (∀ (w : NName) (d : Nat), (w, d) ∈ g.inits → w ∈ st.providerInputDefs →
    w ∈ st.nonProviderInputDefs → (alookup r1 w).isSome = true) ∧
  (∀ a, a ∈ st.nonProviderOutputDefs → a ∈ st.providerInputDefs →
    (alookup r2 a).isSome = true) ∧
  (∀ a, a ∈ st.providerOutputDefs → a ∈ st.nonProviderInputDefs →
    (alookup r2 a).isSome = true) ∧
  (∀ (w : NName) (d : Nat), (w, d) ∈ g.inits → w ∈ st.providerInputDefs →
    w ∈ st.nonProviderInputDefs → (∀ d2, (w, d2) ∈ g.inits → d2 = d) →
    ∃ v, alookup r1 w = some v ∧ (∃ j, g.nameCounter ≤ j ∧ v = NName.gen j) ∧
      (v, d) ∈ g1.inits)

theorem run1_decomp {B : String} {g g1 : TGraph} {m : Bool} {st : TMState}
    (hok : processAllDefs specRegistry B 0 g.nodes initTMState = Except.ok st)
    (hnm : noMemcpyOps g = true)
    (hrun : modifyGraph specRegistry B g = Except.ok (g1, m)) :
    ∃ r1 r2 mem, run1Props B g g1 st r1 r2 mem := by
  obtain ⟨_, _, _, _, hpnchar⟩ := run1_sets hok hnm
  set P := processInitsLoop st.providerInputDefs st.nonProviderInputDefs g.inits g []
    with hP
  set gA : TGraph := { P.1 with nodes := applyReplaceDefs P.2 st.providerNodes 0 P.1.nodes }
    with hgA
  set Q1 := copyLoop B true st.providerInputDefs st.nonProviderOutputDefs gA [] false
    with hQ1
  set Q2 := copyLoop B false st.nonProviderInputDefs st.providerOutputDefs Q1.1 Q1.2.1 Q1.2.2
    with hQ2
  have hcompute : modifyGraph specRegistry B g =
      Except.ok ({ Q2.1 with nodes := applyReplaceDefs Q2.2.1 st.providerNodes 0 Q2.1.nodes }, Q2.2.2) := by
    unfold modifyGraph
    rw [hok]
    rfl
  rw [hrun] at hcompute
  have hg1e : g1 = { Q2.1 with nodes := applyReplaceDefs Q2.2.1 st.providerNodes 0 Q2.1.nodes } := by
    injection hcompute with h2
    exact congrArg Prod.fst h2
  -- facts about the initializer phase
  obtain ⟨⟨pi1, pi2, pi3, pi4⟩, ⟨rest, hrest, hrestf⟩, pipres, piinv, pitot⟩ :=
    processInitsLoop_spec st.providerInputDefs st.nonProviderInputDefs g.inits g []
  -- facts about the two copy loops
  obtain ⟨⟨c1a, c1b, c1c, c1d⟩, ⟨extra1, hex1, hex1f⟩, c1pres, c1inv, c1tot⟩ :=
    copyLoop_spec B true st.providerInputDefs st.nonProviderOutputDefs gA [] false
  obtain ⟨⟨c2a, c2b, c2c, c2d⟩, ⟨extra2, hex2, hex2f⟩, c2pres, c2inv, c2tot⟩ :=
    copyLoop_spec B false st.nonProviderInputDefs st.providerOutputDefs Q1.1 Q1.2.1 Q1.2.2
  have hgAnodes : gA.nodes = applyReplaceDefs P.2 st.providerNodes 0 g.nodes := by
    rw [hgA]
    simp only []
    rw [pi1]
  have hgAcnt : g.nameCounter ≤ gA.nameCounter := by
    rw [hgA]
    exact pi4
  have hpn_bound : ∀ j ∈ st.providerNodes, j < g.nodes.length := by
    intro j hj
    obtain ⟨h, _⟩ := (hpnchar j).mp hj
    exact h
  have hpn_iff : ∀ (j : Nat) (h : j < g.nodes.length),
      (j ∈ st.providerNodes ↔ (g.nodes.get ⟨j, h⟩).provider = B) := by
    intro j h
    rw [hpnchar j]
    constructor
    · rintro ⟨h2, hp⟩
      exact hp
    · intro hp
      exact ⟨h, hp⟩
  refine ⟨P.2, Q2.2.1, extra1 ++ extra2, ?_, ?_, ?_, ?_, ?_, ?_, ?_, ?_, ?_⟩
  · -- node shape
    rw [hg1e]
    simp only []
    rw [hex2, hex1, hgAnodes, List.append_assoc]
    rw [applyReplaceDefs_append]
    have hlen : (applyReplaceDefs P.2 st.providerNodes 0 g.nodes).length = g.nodes.length :=
      applyReplaceDefs_length P.2 st.providerNodes 0 g.nodes
    have hnohit : applyReplaceDefs Q2.2.1 st.providerNodes
        (0 + (applyReplaceDefs P.2 st.providerNodes 0 g.nodes).length) (extra1 ++ extra2) =
        extra1 ++ extra2 := by
      apply applyReplaceDefs_no_hit
      intro j hj
      rw [hlen]
      have := hpn_bound j hj
      omega
    rw [hnohit]
    have hmap1 : applyReplaceDefs P.2 st.providerNodes 0 g.nodes =
        g.nodes.map (fun n => condRewrite B P.2 n) := by
      apply applyReplaceDefs_eq_map
      intro j h
      rw [Nat.zero_add]
      exact hpn_iff j h
    have hmap2 : applyReplaceDefs Q2.2.1 st.providerNodes 0
        (g.nodes.map (fun n => condRewrite B P.2 n)) =
        (g.nodes.map (fun n => condRewrite B P.2 n)).map
          (fun n => condRewrite B Q2.2.1 n) := by
      apply applyReplaceDefs_eq_map
      intro j h
      rw [Nat.zero_add]
      have hlen2 : j < g.nodes.length := by
        simpa using h
      rw [List.get_map]
      rw [condRewrite_provider]
      exact hpn_iff j hlen2
    rw [hmap1, hmap2, List.map_map]
    rfl
  · -- inits shape
    have hchain : g1.inits = P.1.inits := by
      rw [hg1e]
      simp only []
      rw [c2a, c1a, hgA]
    refine ⟨rest, ?_, hrestf⟩
    rw [hchain, hrest]
  · -- mem characterization
    intro nd hnd
    rcases List.mem_append.mp hnd with hnd | hnd
    · obtain ⟨a, j, ha, hc, hj, hform⟩ := hex1f nd hnd
      exact ⟨a, j, le_trans hgAcnt hj, Or.inl ⟨ha, hc, hform⟩⟩
    · obtain ⟨a, j, ha, hc, hj, hform⟩ := hex2f nd hnd
      refine ⟨a, j, ?_, Or.inr ⟨ha, hc, hform⟩⟩
      have : gA.nameCounter ≤ Q1.1.nameCounter := c1d
      omega
  · -- r1 domain
    intro k v h
    rcases piinv k v h with h2 | ⟨h1, h2, h3, h4⟩
    · simp [alookup] at h2
    · exact ⟨h1, h2, h3, h4⟩
  · -- r2 domain
    intro k v h
    rcases c2inv k v h with h2 | ⟨h1, h2b, j, hj, hv⟩
    · rcases c1inv k v h2 with h3 | ⟨h1, h2b, j, hj, hv⟩
      · simp [alookup] at h3
      · exact ⟨Or.inl ⟨h1, h2b⟩, j, le_trans hgAcnt hj, hv⟩
    · refine ⟨Or.inr ⟨h1, h2b⟩, j, ?_, hv⟩
      have : gA.nameCounter ≤ Q1.1.nameCounter := c1d
      omega
  · -- r1 totality
    intro w d hw hp hnp
    exact pitot (w, d) hw hp hnp
  · -- r2 totality, direction 1
    intro a ha hp
    have h1 := c1tot a ha hp
    obtain ⟨v, hv⟩ := Option.isSome_iff_exists.mp h1
    rw [c2pres a v hv]
    rfl
  · -- r2 totality, direction 2
    intro a ha hnp
    exact c2tot a ha hnp
  · -- clone binding
    intro w d hw hp hnp huniq
    obtain ⟨v, hv, hfr, hvmem⟩ :=
      processInitsLoop_clone st.providerInputDefs st.nonProviderInputDefs g.inits g [] w d
        hw hp hnp rfl huniq
    refine ⟨v, hv, hfr, ?_⟩
    have hchain : g1.inits = P.1.inits := by
      rw [hg1e]
      simp only []
      rw [c2a, c1a, hgA]
    rw [hchain]
    exact hvmem

/-! ### The combined replacement applied to provider-node defs -/

/-- The total def rewrite a provider node undergoes in one run: first the
initializer replacements, then the copy replacements. -/
def rho (r1 r2 : List (NName × NName)) (x : NName) : NName :=
  replOne r2 (replOne r1 x)

theorem rho_facts {B : String} {g g1 : TGraph} {st : TMState}
    {r1 r2 : List (NName × NName)} {mem : List TNode}
    (hok : processAllDefs specRegistry B 0 g.nodes initTMState = Except.ok st)
    (hfresh : counterFresh g = true) (hnm : noMemcpyOps g = true)
    (hprops : run1Props B g g1 st r1 r2 mem) :
    (∀ x v, alookup r1 x = some v →
      rho r1 r2 x = v ∧ ∃ j, g.nameCounter ≤ j ∧ v = NName.gen j) ∧
    (∀ x v, alookup r1 x = none → alookup r2 x = some v →
      rho r1 r2 x = v ∧ ∃ j, g.nameCounter ≤ j ∧ v = NName.gen j) ∧
    (∀ x, alookup r1 x = none → alookup r2 x = none → rho r1 r2 x = x) ∧
    (∀ x, x ∈ graphNames g → rho r1 r2 x ∈ graphNames g →
      alookup r1 x = none ∧ alookup r2 x = none ∧ rho r1 r2 x = x) ∧
    (∀ x, x.existsArg = false → rho r1 r2 x = x) := by
  obtain ⟨_, _, _, hr1dom, hr2dom, _, _, _, _⟩ := hprops
  obtain ⟨hsub1, hsub2, hsub3, hsub4⟩ := run1_sets_sub hok hnm
  have rf3 : ∀ x, alookup r1 x = none → alookup r2 x = none → rho r1 r2 x = x := by
    intro x h1 h2
    unfold rho replOne
    rw [h1, h2]
  have r2_none_of_fresh : ∀ j, g.nameCounter ≤ j → alookup r2 (NName.gen j) = none := by
    intro j hj
    cases h2 : alookup r2 (NName.gen j) with
    | none => rfl
    | some w =>
        obtain ⟨hset, _⟩ := hr2dom _ _ h2
        exfalso
        rcases hset with ⟨hmem2, _⟩ | ⟨hmem2, _⟩
        · exact counterFresh_not_mem hfresh hj (hsub4 _ hmem2).1
        · exact counterFresh_not_mem hfresh hj (hsub3 _ hmem2).1
  have rf1 : ∀ x v, alookup r1 x = some v →
      rho r1 r2 x = v ∧ ∃ j, g.nameCounter ≤ j ∧ v = NName.gen j := by
    intro x v h1
    obtain ⟨_, _, _, j, hj, hv⟩ := hr1dom x v h1
    subst hv
    refine ⟨?_, j, hj, rfl⟩
    unfold rho replOne
    rw [h1, r2_none_of_fresh j hj]
  have rf2 : ∀ x v, alookup r1 x = none → alookup r2 x = some v →
      rho r1 r2 x = v ∧ ∃ j, g.nameCounter ≤ j ∧ v = NName.gen j := by
    intro x v h1 h2
    obtain ⟨_, j, hj, hv⟩ := hr2dom x v h2
    refine ⟨?_, j, hj, hv⟩
    unfold rho replOne
    rw [h1, h2]
  refine ⟨rf1, rf2, rf3, ?_, ?_⟩
  · intro x hx hrx
    cases h1 : alookup r1 x with
    | some v =>
        obtain ⟨heq, j, hj, hv⟩ := rf1 x v h1
        rw [heq, hv] at hrx
        exact absurd hrx (counterFresh_not_mem hfresh hj)
    | none =>
        cases h2 : alookup r2 x with
        | some v =>
            obtain ⟨heq, j, hj, hv⟩ := rf2 x v h1 h2
            rw [heq, hv] at hrx
            exact absurd hrx (counterFresh_not_mem hfresh hj)
        | none => exact ⟨rfl, rfl, rf3 x h1 h2⟩
  · intro x hex
    cases h1 : alookup r1 x with
    | some v =>
        obtain ⟨_, hnp, _, _⟩ := hr1dom x v h1
        rw [(hsub2 x hnp).2] at hex
        cases hex
    | none =>
        cases h2 : alookup r2 x with
        | some v =>
            obtain ⟨hset, _⟩ := hr2dom x v h2
            rcases hset with ⟨hmem2, _⟩ | ⟨hmem2, _⟩
            · rw [(hsub4 x hmem2).2] at hex
              cases hex
            · rw [(hsub3 x hmem2).2] at hex
              cases hex
        | none => exact rf3 x h1 h2

theorem replaceDefs_twice_rho (r1 r2 : List (NName × NName)) (n : TNode) :
    replaceDefs r2 (replaceDefs r1 n) =
      { n with
        inputDefs := n.inputDefs.map (rho r1 r2),
        implicitInputDefs := n.implicitInputDefs.map (rho r1 r2),
        outputDefs := n.outputDefs.map (rho r1 r2) } := by
  cases n
  simp [replaceDefs, List.map_map, rho, Function.comp]

theorem condRewrite_twice_B (B : String) (r1 r2 : List (NName × NName)) (n : TNode)
    (hp : n.provider = B) :
    condRewrite B r2 (condRewrite B r1 n) =
      { n with
        inputDefs := n.inputDefs.map (rho r1 r2),
        implicitInputDefs := n.implicitInputDefs.map (rho r1 r2),
        outputDefs := n.outputDefs.map (rho r1 r2) } := by
  unfold condRewrite
  rw [if_pos hp]
  rw [if_pos (show (replaceDefs r1 n).provider = B from hp)]
  exact replaceDefs_twice_rho r1 r2 n

theorem condRewrite_twice_nonB (B : String) (r1 r2 : List (NName × NName)) (n : TNode)
    (hp : ¬(n.provider = B)) :
    condRewrite B r2 (condRewrite B r1 n) = n := by
  unfold condRewrite
  rw [if_neg hp, if_neg hp]

theorem nodeContribs_rewritten (B : String) (r1 r2 : List (NName × NName)) (n : TNode)
    (hp : n.provider = B) (hreg : specRegistry n.opType = none) :
    nodePIn specRegistry B (condRewrite B r2 (condRewrite B r1 n)) =
      n.inputDefs.map (rho r1 r2) ∧
    nodeNpIn specRegistry B (condRewrite B r2 (condRewrite B r1 n)) = [] ∧
    nodePOut specRegistry B (condRewrite B r2 (condRewrite B r1 n)) =
      existsFilter (n.outputDefs.map (rho r1 r2)) ∧
    nodeNpOut specRegistry B (condRewrite B r2 (condRewrite B r1 n)) = [] := by
  rw [condRewrite_twice_B B r1 r2 n hp]
  refine ⟨?_, ?_, ?_, ?_⟩
  · unfold nodePIn
    rw [if_pos (show TNode.provider { n with inputDefs := n.inputDefs.map (rho r1 r2), implicitInputDefs := n.implicitInputDefs.map (rho r1 r2), outputDefs := n.outputDefs.map (rho r1 r2) } = B from hp)]
    rw [show TNode.opType { n with inputDefs := n.inputDefs.map (rho r1 r2), implicitInputDefs := n.implicitInputDefs.map (rho r1 r2), outputDefs := n.outputDefs.map (rho r1 r2) } = n.opType from rfl]
    rw [hreg, provInContrib_none]
  · unfold nodeNpIn
    rw [if_pos (show TNode.provider { n with inputDefs := n.inputDefs.map (rho r1 r2), implicitInputDefs := n.implicitInputDefs.map (rho r1 r2), outputDefs := n.outputDefs.map (rho r1 r2) } = B from hp)]
    rw [show TNode.opType { n with inputDefs := n.inputDefs.map (rho r1 r2), implicitInputDefs := n.implicitInputDefs.map (rho r1 r2), outputDefs := n.outputDefs.map (rho r1 r2) } = n.opType from rfl]
    rw [hreg, provInCpuContrib_none]
  · unfold nodePOut
    rw [if_pos (show TNode.provider { n with inputDefs := n.inputDefs.map (rho r1 r2), implicitInputDefs := n.implicitInputDefs.map (rho r1 r2), outputDefs := n.outputDefs.map (rho r1 r2) } = B from hp)]
    rw [show TNode.opType { n with inputDefs := n.inputDefs.map (rho r1 r2), implicitInputDefs := n.implicitInputDefs.map (rho r1 r2), outputDefs := n.outputDefs.map (rho r1 r2) } = n.opType from rfl]
    rw [hreg, provOutContrib_none]
  · unfold nodeNpOut
    rw [if_pos (show TNode.provider { n with inputDefs := n.inputDefs.map (rho r1 r2), implicitInputDefs := n.implicitInputDefs.map (rho r1 r2), outputDefs := n.outputDefs.map (rho r1 r2) } = B from hp)]
    rw [show TNode.opType { n with inputDefs := n.inputDefs.map (rho r1 r2), implicitInputDefs := n.implicitInputDefs.map (rho r1 r2), outputDefs := n.outputDefs.map (rho r1 r2) } = n.opType from rfl]
    rw [hreg, provOutCpuContrib_none]

theorem nodeContribs_unrewritten (B : String) (reg : KernelRegistry) (n : TNode)
    (hp : ¬(n.provider = B)) :
    nodePIn reg B n = [] ∧
    nodeNpIn reg B n = existsFilter n.inputDefs ++ existsFilter n.implicitInputDefs ∧
    nodePOut reg B n = [] ∧
    nodeNpOut reg B n = existsFilter n.outputDefs := by
  unfold nodePIn nodeNpIn nodePOut nodeNpOut
  rw [if_neg hp, if_neg hp, if_neg hp, if_neg hp]
  exact ⟨rfl, rfl, rfl, rfl⟩

/-! ### The second run finds nothing to do -/

theorem run2_no_hits {B : String} {g g1 : TGraph} {st st2 : TMState}
    {r1 r2 : List (NName × NName)} {mem : List TNode}
    (hok : processAllDefs specRegistry B 0 g.nodes initTMState = Except.ok st)
    (hfresh : counterFresh g = true) (hnm : noMemcpyOps g = true)
    (hprops : run1Props B g g1 st r1 r2 mem)
    (hok2 : processAllDefs specRegistry B 0 g1.nodes initTMState = Except.ok st2) :
    (∀ a ∈ st2.nonProviderOutputDefs, a ∉ st2.providerInputDefs) ∧
    (∀ a ∈ st2.providerOutputDefs, a ∉ st2.nonProviderInputDefs) ∧
    (∀ wd ∈ g1.inits, ¬(wd.1 ∈ st2.providerInputDefs ∧ wd.1 ∈ st2.nonProviderInputDefs)) := by
  obtain ⟨rf1, rf2, rf3, rf4, rf5⟩ := rho_facts hok hfresh hnm hprops
  obtain ⟨s1, s2, s3, s4, _⟩ := run1_sets hok hnm
  obtain ⟨sub1, sub2, sub3, sub4⟩ := run1_sets_sub hok hnm
  obtain ⟨hnodes, ⟨rest, hinits, hrestf⟩, hmemc, hr1dom, hr2dom, hr1tot, hr2tot1, hr2tot2, _⟩ :=
    hprops
  obtain ⟨_, t2pi, t2ni, t2po, t2no⟩ :=
    processAllDefs_spec specRegistry B g1.nodes 0 initTMState st2 hok2
  -- a membership in g1.nodes is either a rewritten original or a Memcpy node
  have hsplit : ∀ n' ∈ g1.nodes,
      (∃ n ∈ g.nodes, n' = condRewrite B r2 (condRewrite B r1 n)) ∨ n' ∈ mem := by
    intro n' hn'
    rw [hnodes] at hn'
    rcases List.mem_append.mp hn' with h | h
    · obtain ⟨n, hn, he⟩ := List.mem_map.mp h
      exact Or.inl ⟨n, hn, he.symm⟩
    · exact Or.inr h
  -- forward characterization of the four def sets of the second run
  have fwd_pIn : ∀ x, x ∈ st2.providerInputDefs →
      (∃ y, y ∈ st.providerInputDefs ∧ x = rho r1 r2 y) ∨
      (∃ j, g.nameCounter ≤ j ∧ x = NName.gen j) := by
    intro x hx
    have hm := (t2pi x).mp hx
    simp only [initTMState, List.not_mem_nil, false_or] at hm
    obtain ⟨n', hn', hcontrib⟩ := hm
    rcases hsplit n' hn' with ⟨n, hn, rfl⟩ | hmm
    · by_cases hp : n.provider = B
      · rw [(nodeContribs_rewritten B r1 r2 n hp (noMemcpyOps_ops hnm hn)).1] at hcontrib
        obtain ⟨y, hy, he⟩ := List.mem_map.mp hcontrib
        exact Or.inl ⟨y, (s1 y).mpr ⟨n, hn, hp, hy⟩, he.symm⟩
      · rw [condRewrite_twice_nonB B r1 r2 n hp] at hcontrib
        rw [(nodeContribs_unrewritten B specRegistry n hp).1] at hcontrib
        cases hcontrib
    · obtain ⟨a, j, hj, hform⟩ := hmemc n' hmm
      rcases hform with ⟨_, _, rfl⟩ | ⟨_, _, rfl⟩
      · rw [(memNode_fromHost_contribs B a j).1] at hcontrib
        cases hcontrib
      · rw [(memNode_toHost_contribs B a j).1] at hcontrib
        exact Or.inr ⟨j, hj, List.mem_singleton.mp hcontrib⟩
  have fwd_npIn : ∀ x, x ∈ st2.nonProviderInputDefs →
      x ∈ st.nonProviderInputDefs ∨
      (x ∈ st.nonProviderOutputDefs ∧ x ∈ st.providerInputDefs) := by
    intro x hx
    have hm := (t2ni x).mp hx
    simp only [initTMState, List.not_mem_nil, false_or] at hm
    obtain ⟨n', hn', hcontrib⟩ := hm
    rcases hsplit n' hn' with ⟨n, hn, rfl⟩ | hmm
    · by_cases hp : n.provider = B
      · rw [(nodeContribs_rewritten B r1 r2 n hp (noMemcpyOps_ops hnm hn)).2.1] at hcontrib
        cases hcontrib
      · rw [condRewrite_twice_nonB B r1 r2 n hp] at hcontrib
        rw [(nodeContribs_unrewritten B specRegistry n hp).2.1] at hcontrib
        exact Or.inl ((s2 x).mpr ⟨n, hn, hp, List.mem_append.mp hcontrib⟩)
    · obtain ⟨a, j, hj, hform⟩ := hmemc n' hmm
      rcases hform with ⟨ha1, ha2, rfl⟩ | ⟨_, _, rfl⟩
      · rw [(memNode_fromHost_contribs B a j).2.1] at hcontrib
        rw [List.mem_singleton.mp hcontrib]
        exact Or.inr ⟨ha1, ha2⟩
      · rw [(memNode_toHost_contribs B a j).2.1] at hcontrib
        cases hcontrib
  have fwd_pOut : ∀ x, x ∈ st2.providerOutputDefs →
      (∃ y, y ∈ st.providerOutputDefs ∧ x = rho r1 r2 y) ∨
      (∃ j, g.nameCounter ≤ j ∧ x = NName.gen j) := by
    intro x hx
    have hm := (t2po x).mp hx
    simp only [initTMState, List.not_mem_nil, false_or] at hm
    obtain ⟨n', hn', hcontrib⟩ := hm
    rcases hsplit n' hn' with ⟨n, hn, rfl⟩ | hmm
    · by_cases hp : n.provider = B
      · rw [(nodeContribs_rewritten B r1 r2 n hp (noMemcpyOps_ops hnm hn)).2.2.1] at hcontrib
        obtain ⟨hmap, hexx⟩ := mem_existsFilter hcontrib
        obtain ⟨y, hy, he⟩ := List.mem_map.mp hmap
        by_cases hey : y.existsArg = true
        · refine Or.inl ⟨y, (s3 y).mpr ⟨n, hn, hp, mem_existsFilter_iff.mpr ⟨hy, hey⟩⟩, he.symm⟩
        · have heyf : y.existsArg = false := by
            cases hc : y.existsArg
            · rfl
            · exact absurd hc hey
          rw [rf5 y heyf] at he
          rw [← he] at hexx
          rw [hexx] at heyf
          cases heyf
      · rw [condRewrite_twice_nonB B r1 r2 n hp] at hcontrib
        rw [(nodeContribs_unrewritten B specRegistry n hp).2.2.1] at hcontrib
        cases hcontrib
    · obtain ⟨a, j, hj, hform⟩ := hmemc n' hmm
      rcases hform with ⟨_, _, rfl⟩ | ⟨_, _, rfl⟩
      · rw [(memNode_fromHost_contribs B a j).2.2.1] at hcontrib
        exact Or.inr ⟨j, hj, List.mem_singleton.mp hcontrib⟩
      · rw [(memNode_toHost_contribs B a j).2.2.1] at hcontrib
        cases hcontrib
  have fwd_npOut : ∀ x, x ∈ st2.nonProviderOutputDefs →
      x ∈ st.nonProviderOutputDefs ∨
      (x ∈ st.providerOutputDefs ∧ x ∈ st.nonProviderInputDefs) := by
    intro x hx
    have hm := (t2no x).mp hx
    simp only [initTMState, List.not_mem_nil, false_or] at hm
    obtain ⟨n', hn', hcontrib⟩ := hm
    rcases hsplit n' hn' with ⟨n, hn, rfl⟩ | hmm
    · by_cases hp : n.provider = B
      · rw [(nodeContribs_rewritten B r1 r2 n hp (noMemcpyOps_ops hnm hn)).2.2.2] at hcontrib
        cases hcontrib
      · rw [condRewrite_twice_nonB B r1 r2 n hp] at hcontrib
        rw [(nodeContribs_unrewritten B specRegistry n hp).2.2.2] at hcontrib
        exact Or.inl ((s4 x).mpr ⟨n, hn, hp, hcontrib⟩)
    · obtain ⟨a, j, hj, hform⟩ := hmemc n' hmm
      rcases hform with ⟨_, _, rfl⟩ | ⟨ha1, ha2, rfl⟩
      · rw [(memNode_fromHost_contribs B a j).2.2.2] at hcontrib
        cases hcontrib
      · rw [(memNode_toHost_contribs B a j).2.2.2] at hcontrib
        obtain ⟨hmem2, _⟩ := mem_existsFilter hcontrib
        rw [List.mem_singleton.mp hmem2]
        exact Or.inr ⟨ha1, ha2⟩
  refine ⟨?_, ?_, ?_⟩
  · -- no arg is both a non-provider output and a provider input on run 2
    intro a hano hapi
    have hagn : a ∈ graphNames g := by
      rcases fwd_npOut a hano with h | ⟨h, _⟩
      · exact (sub4 a h).1
      · exact (sub3 a h).1
    rcases fwd_pIn a hapi with ⟨y, hy, he⟩ | ⟨j, hj, rfl⟩
    · obtain ⟨h1n, h2n, heq⟩ := rf4 y (sub1 y hy) (by rw [← he]; exact hagn)
      rw [heq] at he
      subst he
      rcases fwd_npOut a hano with h | ⟨hpo, hni⟩
      · have := hr2tot1 a h hy
        rw [h2n] at this
        cases this
      · have := hr2tot2 a hpo hni
        rw [h2n] at this
        cases this
    · exact counterFresh_not_mem hfresh hj hagn
  · -- no arg is both a provider output and a non-provider input on run 2
    intro a hapo hani
    have hagn : a ∈ graphNames g := by
      rcases fwd_npIn a hani with h | ⟨h, _⟩
      · exact (sub2 a h).1
      · exact (sub4 a h).1
    rcases fwd_pOut a hapo with ⟨y, hy, he⟩ | ⟨j, hj, rfl⟩
    · obtain ⟨h1n, h2n, heq⟩ := rf4 y (sub3 y hy).1 (by rw [← he]; exact hagn)
      rw [heq] at he
      subst he
      rcases fwd_npIn a hani with h | ⟨hno, hpi⟩
      · have := hr2tot2 a hy h
        rw [h2n] at this
        cases this
      · have := hr2tot1 a hno hpi
        rw [h2n] at this
        cases this
    · exact counterFresh_not_mem hfresh hj hagn
  · -- no initializer of the transformed graph lies in both input sets
    intro wd hwd hboth
    obtain ⟨hpi, hni⟩ := hboth
    rw [hinits] at hwd
    rcases List.mem_append.mp hwd with hwd | hwd
    · have hwgn : wd.1 ∈ graphNames g :=
        mem_graphNames_of_init (show (wd.1, wd.2) ∈ g.inits from hwd)
      rcases fwd_pIn wd.1 hpi with ⟨y, hy, he⟩ | ⟨j, hj, hje⟩
      · obtain ⟨h1n, h2n, heq⟩ := rf4 y (sub1 y hy) (by rw [← he]; exact hwgn)
        rw [heq] at he
        rcases fwd_npIn wd.1 hni with h | ⟨hno, hpi2⟩
        · have h3 := hr1tot wd.1 wd.2 hwd (by rw [he]; exact hy) h
          rw [he, h1n] at h3
          simp at h3
        · have h3 := hr2tot1 wd.1 hno hpi2
          rw [he, h2n] at h3
          simp at h3
      · rw [hje] at hwgn
        exact counterFresh_not_mem hfresh hj hwgn
    · obtain ⟨j, hj, hje⟩ := hrestf wd hwd
      have hwgn : wd.1 ∈ graphNames g := by
        rcases fwd_npIn wd.1 hni with h | ⟨h, _⟩
        · exact (sub2 wd.1 h).1
        · exact (sub4 wd.1 h).1
      rw [hje] at hwgn
      exact counterFresh_not_mem hfresh hj hwgn

/-! # Claim C3: amended theorem -/

/-- Claim C3, amended: on every graph that holds no Memcpy node yet and
whose fresh-name counter is ahead of all names in the graph, a second run
of the pass immediately after a first run leaves the graph untouched and
reports that it did not modify it. -/
theorem c3_pass_idempotent (B : String) (g g1 : TGraph) (m : Bool)
    (hrun : modifyGraph specRegistry B g = Except.ok (g1, m))
    (hfresh : counterFresh g = true)
    (hnm : noMemcpyOps g = true) :
    modifyGraph specRegistry B g1 = Except.ok (g1, false) := by
  cases hok : processAllDefs specRegistry B 0 g.nodes initTMState with
  | error e =>
      unfold modifyGraph at hrun
      rw [hok] at hrun
      exact Except.noConfusion hrun
  | ok st =>
      obtain ⟨r1, r2, mem, hprops⟩ := run1_decomp hok hnm hrun
      have hthrow1 : ∀ n ∈ g.nodes, nodeThrows B n = false :=
        processAllDefs_no_throw_of_ok specRegistry B g.nodes 0 initTMState st hok
      have hnodes := hprops.1
      have hmemc := hprops.2.2.1
      have hthrow2 : ∀ n2 ∈ g1.nodes, nodeThrows B n2 = false := by
        intro n2 hn2
        rw [hnodes] at hn2
        rcases List.mem_append.mp hn2 with h | h
        · obtain ⟨n, hn, rfl⟩ := List.mem_map.mp h
          have hth := hthrow1 n hn
          unfold nodeThrows at hth ⊢
          rw [condRewrite_provider, condRewrite_provider]
          exact hth
        · obtain ⟨a, j, hj, hform⟩ := hmemc n2 h
          rcases hform with ⟨_, _, rfl⟩ | ⟨_, _, rfl⟩ <;>
            simp [nodeThrows, memNode]
      obtain ⟨st2, hok2⟩ :=
        processAllDefs_ok_of_no_throw specRegistry B g1.nodes 0 initTMState hthrow2
      obtain ⟨hno1, hno2, hno3⟩ := run2_no_hits hok hfresh hnm hprops hok2
      have hinitsrun : processInitsLoop st2.providerInputDefs st2.nonProviderInputDefs
          g1.inits g1 [] = (g1, []) :=
        processInitsLoop_no_hit _ _ g1.inits g1 [] (fun wd hwd => hno3 wd hwd)
      have hprocI : processInits st2 g1 = g1 := by
        unfold processInits
        rw [hinitsrun]
        simp only [applyReplaceDefs_nil_map]
      have hcopy1 : copyLoop B true st2.providerInputDefs st2.nonProviderOutputDefs
          g1 [] false = (g1, [], false) :=
        copyLoop_no_hit B true st2.providerInputDefs st2.nonProviderOutputDefs g1 [] false
          hno1
      have hcopy2 : copyLoop B false st2.nonProviderInputDefs st2.providerOutputDefs
          g1 [] false = (g1, [], false) :=
        copyLoop_no_hit B false st2.nonProviderInputDefs st2.providerOutputDefs g1 [] false
          hno2
      unfold modifyGraph
      rw [hok2]
      simp only [hprocI, hcopy1, hcopy2, applyReplaceDefs_nil_map]

/-- The three-node chain of the spec (section 8) with its middle node on
backend B. -/
def c3WitnessGraph : TGraph :=
  { nodes := [{ name := "A", opType := "OpA", provider := "", inputDefs := [NName.user "x"],
                implicitInputDefs := [], outputDefs := [NName.user "y"] },
              { name := "Bn", opType := "OpB", provider := "B", inputDefs := [NName.user "y"],
                implicitInputDefs := [], outputDefs := [NName.user "z"] },
              { name := "C", opType := "OpC", provider := "", inputDefs := [NName.user "z"],
                implicitInputDefs := [], outputDefs := [NName.user "w"] }],
    inits := [], graphInputs := [NName.user "x"], graphOutputs := [NName.user "w"],
    nameCounter := 0 }

/-- The chain after one run: a MemcpyFromHost node at the A to B boundary
and a MemcpyToHost node at the B to C boundary. -/
def c3WitnessGraph1 : TGraph :=
  { nodes := [{ name := "A", opType := "OpA", provider := "", inputDefs := [NName.user "x"],
                implicitInputDefs := [], outputDefs := [NName.user "y"] },
              { name := "Bn", opType := "OpB", provider := "B", inputDefs := [NName.gen 0],
                implicitInputDefs := [], outputDefs := [NName.gen 1] },
              { name := "C", opType := "OpC", provider := "", inputDefs := [NName.user "z"],
                implicitInputDefs := [], outputDefs := [NName.user "w"] },
              { name := "Memcpy", opType := "MemcpyFromHost", provider := "B",
                inputDefs := [NName.user "y"], implicitInputDefs := [],
                outputDefs := [NName.gen 0] },
              { name := "Memcpy", opType := "MemcpyToHost", provider := "B",
                inputDefs := [NName.gen 1], implicitInputDefs := [],
                outputDefs := [NName.user "z"] }],
    inits := [], graphInputs := [NName.user "x"], graphOutputs := [NName.user "w"],
    nameCounter := 2 }

theorem c3_pass_idempotent_witness :
    modifyGraph specRegistry "B" c3WitnessGraph = Except.ok (c3WitnessGraph1, true) ∧
    counterFresh c3WitnessGraph = true ∧
    noMemcpyOps c3WitnessGraph = true ∧
    modifyGraph specRegistry "B" c3WitnessGraph1 = Except.ok (c3WitnessGraph1, false) :=
  ⟨rfl, by decide, by decide,
   c3_pass_idempotent "B" c3WitnessGraph c3WitnessGraph1 true rfl (by decide) (by decide)⟩

/-! # Claim C2: amended theorem -/

/-- Positional repointing: every def that was w is now w2 and the def
count is unchanged. -/
def defsRepoint (w w2 : NName) (old new : List NName) : Prop :=
  new.length = old.length ∧
  ∀ (j : Nat) (h : j < old.length) (h2 : j < new.length),
    old.get ⟨j, h⟩ = w → new.get ⟨j, h2⟩ = w2

theorem defsRepoint_map {w w2 : NName} {r1 r2 : List (NName × NName)}
    (h : rho r1 r2 w = w2) (l : List NName) :
    defsRepoint w w2 l (l.map (rho r1 r2)) := by
  refine ⟨by simp, ?_⟩
  intro j hj hj2 hget
  simp only [List.get_eq_getElem] at hget ⊢
  rw [List.getElem_map]
  rw [hget, h]

theorem nodupKeys_eq {l : List (NName × Nat)} (h : (l.map Prod.fst).Nodup)
    {w : NName} {d d2 : Nat} (h1 : (w, d) ∈ l) (h2 : (w, d2) ∈ l) : d2 = d := by
  induction l with
  | nil => cases h1
  | cons p t ih =>
      rw [List.map_cons, List.nodup_cons] at h
      rcases List.mem_cons.mp h1 with he1 | hm1 <;> rcases List.mem_cons.mp h2 with he2 | hm2
      · rw [← he1] at he2
        exact congrArg Prod.snd he2
      · exfalso
        apply h.1
        rw [← he1]
        exact List.mem_map.mpr ⟨(w, d2), hm2, rfl⟩
      · exfalso
        apply h.1
        rw [← he2]
        exact List.mem_map.mpr ⟨(w, d), hm1, rfl⟩
      · exact ih h.2 hm1 hm2

/-- Claim C2, amended: an initializer referenced through an explicit
input by a B node and referenced by a non-B node is cloned under a fresh
name with the same payload; every def of every B node that was the
initializer now names the clone, and non-B nodes are untouched. -/
theorem c2_shared_initializer_cloned (B : String) (g g1 : TGraph) (m : Bool)
    (w : NName) (d : Nat)
    (hrun : modifyGraph specRegistry B g = Except.ok (g1, m))
    (hfresh : counterFresh g = true) (hnm : noMemcpyOps g = true)
    (hnodup : (g.inits.map Prod.fst).Nodup)
    (hw : (w, d) ∈ g.inits)
    (hpb : ∃ n ∈ g.nodes, n.provider = B ∧ w ∈ n.inputDefs)
    (hnb : ∃ n ∈ g.nodes, ¬(n.provider = B) ∧
      (w ∈ existsFilter n.inputDefs ∨ w ∈ existsFilter n.implicitInputDefs)) :
    ∃ w2, w2 ∉ graphNames g ∧ (w2, d) ∈ g1.inits ∧
      g.nodes.length ≤ g1.nodes.length ∧
      ∀ (i : Nat) (h : i < g.nodes.length) (h2 : i < g1.nodes.length),
        (¬((g.nodes.get ⟨i, h⟩).provider = B) →
          g1.nodes.get ⟨i, h2⟩ = g.nodes.get ⟨i, h⟩) ∧
        ((g.nodes.get ⟨i, h⟩).provider = B →
          defsRepoint w w2 (g.nodes.get ⟨i, h⟩).inputDefs
            (g1.nodes.get ⟨i, h2⟩).inputDefs ∧
          defsRepoint w w2 (g.nodes.get ⟨i, h⟩).implicitInputDefs
            (g1.nodes.get ⟨i, h2⟩).implicitInputDefs ∧
          defsRepoint w w2 (g.nodes.get ⟨i, h⟩).outputDefs
            (g1.nodes.get ⟨i, h2⟩).outputDefs) := by
  cases hok : processAllDefs specRegistry B 0 g.nodes initTMState with
  | error e =>
      unfold modifyGraph at hrun
      rw [hok] at hrun
      exact Except.noConfusion hrun
  | ok st =>
      obtain ⟨r1, r2, mem, hprops⟩ := run1_decomp hok hnm hrun
      obtain ⟨rf1, _, _, _, _⟩ := rho_facts hok hfresh hnm hprops
      obtain ⟨s1, s2, _, _, _⟩ := run1_sets hok hnm
      have hnodes := hprops.1
      have hclone := hprops.2.2.2.2.2.2.2.2
      have hp2 : w ∈ st.providerInputDefs := (s1 w).mpr hpb
      have hn2 : w ∈ st.nonProviderInputDefs := (s2 w).mpr hnb
      have huniq : ∀ d2, (w, d2) ∈ g.inits → d2 = d := fun d2 h2 =>
        nodupKeys_eq hnodup hw h2
      obtain ⟨w2, hbind, ⟨j, hj, hw2j⟩, hw2mem⟩ := hclone w d hw hp2 hn2 huniq
      have hrho : rho r1 r2 w = w2 := (rf1 w w2 hbind).1
      refine ⟨w2, ?_, hw2mem, ?_, ?_⟩
      · rw [hw2j]
        exact counterFresh_not_mem hfresh hj
      · rw [hnodes]
        simp
      · intro i h h2
        have hget : g1.nodes.get ⟨i, h2⟩ =
            condRewrite B r2 (condRewrite B r1 (g.nodes.get ⟨i, h⟩)) := by
          have hq : g1.nodes[i]? =
              some (condRewrite B r2 (condRewrite B r1 (g.nodes.get ⟨i, h⟩))) := by
            rw [hnodes, List.getElem?_append_left (by simpa using h), List.getElem?_map,
              List.getElem?_eq_getElem h]
            rfl
          have hq2 : g1.nodes[i]? = some (g1.nodes.get ⟨i, h2⟩) := by
            rw [List.get_eq_getElem]
            exact List.getElem?_eq_getElem h2
          rw [hq] at hq2
          injection hq2 with hq3
          exact hq3.symm
        constructor
        · intro hp
          rw [hget, condRewrite_twice_nonB B r1 r2 _ hp]
        · intro hp
          rw [hget, condRewrite_twice_B B r1 r2 _ hp]
          exact ⟨defsRepoint_map hrho _, defsRepoint_map hrho _, defsRepoint_map hrho _⟩

/-- A B node and a non-B node both read initializer W. -/
def c2WitnessGraph : TGraph :=
  { nodes := [{ name := "Q", opType := "OpQ", provider := "B", inputDefs := [NName.user "W"],
                implicitInputDefs := [], outputDefs := [NName.user "y"] },
              { name := "N", opType := "OpN", provider := "", inputDefs := [NName.user "W"],
                implicitInputDefs := [], outputDefs := [] }],
    inits := [(NName.user "W", 7)], graphInputs := [], graphOutputs := [], nameCounter := 0 }

/-- The graph after the pass: the initializer was cloned for the B side
and Q repointed to the clone; N keeps the original. -/
def c2WitnessGraph1 : TGraph :=
  { nodes := [{ name := "Q", opType := "OpQ", provider := "B", inputDefs := [NName.gen 0],
                implicitInputDefs := [], outputDefs := [NName.user "y"] },
              { name := "N", opType := "OpN", provider := "", inputDefs := [NName.user "W"],
                implicitInputDefs := [], outputDefs := [] }],
    inits := [(NName.user "W", 7), (NName.gen 0, 7)], graphInputs := [], graphOutputs := [],
    nameCounter := 1 }

theorem c2_shared_initializer_cloned_witness :
    ∃ w2, w2 ∉ graphNames c2WitnessGraph ∧ (w2, 7) ∈ c2WitnessGraph1.inits ∧
      c2WitnessGraph.nodes.length ≤ c2WitnessGraph1.nodes.length ∧
      ∀ (i : Nat) (h : i < c2WitnessGraph.nodes.length)
        (h2 : i < c2WitnessGraph1.nodes.length),
        (¬((c2WitnessGraph.nodes.get ⟨i, h⟩).provider = "B") →
          c2WitnessGraph1.nodes.get ⟨i, h2⟩ = c2WitnessGraph.nodes.get ⟨i, h⟩) ∧
        ((c2WitnessGraph.nodes.get ⟨i, h⟩).provider = "B" →
          defsRepoint (NName.user "W") w2 (c2WitnessGraph.nodes.get ⟨i, h⟩).inputDefs
            (c2WitnessGraph1.nodes.get ⟨i, h2⟩).inputDefs ∧
          defsRepoint (NName.user "W") w2
            (c2WitnessGraph.nodes.get ⟨i, h⟩).implicitInputDefs
            (c2WitnessGraph1.nodes.get ⟨i, h2⟩).implicitInputDefs ∧
          defsRepoint (NName.user "W") w2 (c2WitnessGraph.nodes.get ⟨i, h⟩).outputDefs
            (c2WitnessGraph1.nodes.get ⟨i, h2⟩).outputDefs) :=
  c2_shared_initializer_cloned "B" c2WitnessGraph c2WitnessGraph1 false
    (NName.user "W") 7 rfl (by decide) (by decide) (by decide) (by decide)
    ⟨{ name := "Q", opType := "OpQ", provider := "B", inputDefs := [NName.user "W"], implicitInputDefs := [], outputDefs := [NName.user "y"] }, by decide⟩
    ⟨{ name := "N", opType := "OpN", provider := "", inputDefs := [NName.user "W"], implicitInputDefs := [], outputDefs := [] }, by decide⟩

end OnnxRT
